import Mathlib

/-!
# mame2003-libretro: the libretro adaptation layer (`src/libretro/libretro.c`)

A shallow embedding of the path resolver, the orientation negotiator, the
pixel format negotiation, the frame pump and the load, unload and reset
operations of `libretro.c`, with the properties of its specification.

Conventions of the embedding.

* A C string is the list of its characters before the terminating NUL
  (`CStr`); one `Char` stands for one `char` of the C string.  A `char*` that
  may be `NULL` is an `Option CStr`.
* `PATH_SEPARATOR` is fixed at build time by `WINDOWS_PATH_STYLE`/`_WIN32`;
  the build choice is the parameter `win : Bool` of every function that uses it.
* `drivers[]`, the null-terminated registry of machine definitions, is a list
  of `game_driver`; the terminating null pointer is the end of the list.
* Calls that leave this layer (host callbacks, core entry points), stores into
  the core's input arrays and `free` are recorded as a list of `Event`s in
  program order.
* The host has registered its callbacks before it drives an operation; what
  they answer is given by `Host`, what the core does by `Core`.
-/

namespace Libretro

/-! ## Data model -/

/-- A C string: its characters before the terminating NUL. -/
abbrev CStr := List Char

/-- The part of `struct GameDriver` (driver.h) that this file reads. -/
structure game_driver where
  name : CStr
  flags : Nat
deriving DecidableEq, Repr

/-! ## The C library functions used by the path code -/

/-- The C function `strchr(s, c)` for `c` other than NUL: offset of the first `c` in `s`,
`none` for a null result. -/
def strchr : CStr → Char → Option Nat
  | [], _ => none
  | x :: xs, c => if x = c then some 0 else (strchr xs c).map (· + 1)

/-- The C function `strrchr(s, c)` for `c` other than NUL: offset of the last `c` in `s`,
`none` for a null result. -/
def strrchr : CStr → Char → Option Nat
  | [], _ => none
  | x :: xs, c =>
    match strrchr xs c with
    | some i => some (i + 1)
    | none => if x = c then some 0 else none

/-- The C function `strncpy(dst, src, n)` into a zero-filled buffer of more than `n` bytes,
read back as a C string: the first `n` characters of `src`. -/
def strncpy (src : CStr) (n : Nat) : CStr := src.take n

/-! ## Path separators (libretro.c:35-41) -/

/-- The macro `PATH_SEPARATOR`: backslash when built with `WINDOWS_PATH_STYLE` or
`_WIN32`, slash otherwise. -/
def PATH_SEPARATOR (win : Bool) : Char := if win then '\\' else '/'

/-- The local constant `replaced` of `normalizePath`: the separator of the
other convention. -/
def replaced (win : Bool) : Char := if PATH_SEPARATOR win = '\\' then '/' else '\\'

/-! ## normalizePath (libretro.c:43-53) -/

/-- The function `normalizePath`: while `strchr(aPath, replaced)` finds a character, store
`PATH_SEPARATOR` there and search again from the start of the string.  Each
store removes one `replaced` character, which is the termination measure. -/
def normalizePath (win : Bool) (aPath : CStr) : CStr :=
  match h : strchr aPath (replaced win) with
  | some tok => normalizePath win (aPath.set tok (PATH_SEPARATOR win))
  | none => aPath
termination_by aPath.count (replaced win)
decreasing_by
  have hne : replaced win ≠ PATH_SEPARATOR win := by cases win <;> decide
  have key : ∀ (s : CStr) (i : Nat), strchr s (replaced win) = some i →
      (s.set i (PATH_SEPARATOR win)).count (replaced win) + 1 = s.count (replaced win) := by
    intro s
    induction s with
    | nil => intro i hi; simp [strchr] at hi
    | cons x xs ih =>
      intro i hi
      simp only [strchr] at hi
      split at hi
      · rename_i hx
        cases hi
        subst hx
        simp [List.count_cons, Ne.symm hne]
      · rename_i hx
        cases hs : strchr xs (replaced win) with
        | none => simp [hs] at hi
        | some j =>
          simp [hs] at hi
          subst hi
          have := ih j hs
          simp only [List.set_cons_succ, List.count_cons]
          omega
  have := key aPath tok h
  omega

/-! ## getDriverIndex (libretro.c:55-83) -/

/-- The expression `last ? last + 1 : path` of `getDriverIndex` for
`last = strrchr(s, c)`: the part of `s` after the last `c`, all of `s` when
there is none. -/
def afterLast (s : CStr) (c : Char) : CStr :=
  match strrchr s c with
  | some l => s.drop (l + 1)
  | none => s

/-- The contents of the local buffer `driverName` of `getDriverIndex` when the
search loop starts: the normalised path (`"."` for a null path), the part
after the last `PATH_SEPARATOR` (all of it when `strrchr` finds none), copied
by `strncpy` with the bound `sizeof(driverName) - 1 = 127`, then cut at the
first `'.'`. -/
def driverName (win : Bool) (aPath : Option CStr) : CStr :=
  let path := normalizePath win (aPath.getD ['.'])
  let copied := strncpy (afterLast path (PATH_SEPARATOR win)) 127
  match strchr copied '.' with
  | some firstDot => copied.take firstDot
  | none => copied

/-- The search loop `for(int i = 0; drivers[i]; i ++)` of `getDriverIndex`,
entered with counter `i` and the registry entries from `drivers[i]` on;
`strcmp` is 0 exactly on equal strings.  The counter is the C `int`; the
registry is a static table far shorter than `INT_MAX`. -/
def searchList (name : CStr) : List game_driver → Int → Int
  | [], _ => -1
  | d :: ds, i => if name = d.name then i else searchList name ds (i + 1)

/-- The function `getDriverIndex(aPath)`: index of the first registry entry
named like the derived driver name, `-1` when there is none. -/
def getDriverIndex (win : Bool) (drivers : List game_driver) (aPath : Option CStr) : Int :=
  searchList (driverName win aPath) drivers 0

/-! ## peelPathItem (libretro.c:85-94) -/

/-- The function `peelPathItem`: store NUL at the last `PATH_SEPARATOR`, which
cuts the string there; unchanged when there is none. -/
def peelPathItem (win : Bool) (aPath : CStr) : CStr :=
  match strrchr aPath (PATH_SEPARATOR win) with
  | some last => aPath.take last
  | none => aPath

/-! ## The resolver as the specification words it -/

/-- Specification, step 1: every foreign separator replaced by the host
separator. -/
def specNormalize (win : Bool) (p : CStr) : CStr :=
  p.map fun c => if c = replaced win then PATH_SEPARATOR win else c

/-- Specification, step 2: the substring after the last separator, the whole
string when there is none. -/
def specAfterLastSep (win : Bool) (p : CStr) : CStr :=
  (p.reverse.takeWhile (· ≠ PATH_SEPARATOR win)).reverse

/-- Specification, step 3: everything from the first `'.'` on is stripped. -/
def specStripExtension (p : CStr) : CStr := p.takeWhile (· ≠ '.')

/-- Specification, step 4: the least index whose registry name equals `name`,
`-1` when no name equals it. -/
def specLookup (drivers : List game_driver) (name : CStr) : Int :=
  match (drivers.map (·.name)).indexOf? name with
  | some i => (i : Int)
  | none => -1

/-- The reference resolver of the specification (section 4.1). -/
def specResolve (win : Bool) (drivers : List game_driver) (p : CStr) : Int :=
  specLookup drivers (specStripExtension (specAfterLastSep win (specNormalize win p)))

/-- The reference resolver with the base name limited to its first 127
characters, the capacity of the `driverName` buffer. -/
def specResolve127 (win : Bool) (drivers : List game_driver) (p : CStr) : Int :=
  specLookup drivers
    (specStripExtension ((specAfterLastSep win (specNormalize win p)).take 127))

/-- Two paths that differ only in which of `'/'` and `'\\'` is written at each
separator position. -/
def SameUpToSeparators (p q : CStr) : Prop :=
  List.Forall₂ (fun a b => a = b ∨ ((a = '/' ∨ a = '\\') ∧ (b = '/' ∨ b = '\\'))) p q

/-! ## Orientation flags (driver.h) -/

/-- The orientation constants of driver.h that `libretro.c` names.  Their
values are fixed by that header and enter this development as parameters. -/
structure OrientationFlags where
  ORIENTATION_MASK : Nat
  ROT0 : Nat
  ROT90 : Nat
  ROT180 : Nat
  ROT270 : Nat
deriving DecidableEq, Repr

/-- The four rotation constants denote four different rotation classes. -/
def OrientationFlags.Distinct (K : OrientationFlags) : Prop :=
  K.ROT0 ≠ K.ROT90 ∧ K.ROT0 ≠ K.ROT180 ∧ K.ROT0 ≠ K.ROT270 ∧
  K.ROT90 ≠ K.ROT180 ∧ K.ROT90 ≠ K.ROT270 ∧ K.ROT180 ≠ K.ROT270

instance (K : OrientationFlags) : Decidable K.Distinct := by
  unfold OrientationFlags.Distinct
  infer_instance

/-- One assignment of the constants: flip-x = 1, flip-y = 2, swap-xy = 4,
`ROT90` = swap-xy with flip-x, `ROT180` = flip-x with flip-y, `ROT270` = swap-xy
with flip-y, and the mask covering the three bits. -/
def sampleFlags : OrientationFlags :=
  { ORIENTATION_MASK := 7, ROT0 := 0, ROT90 := 5, ROT180 := 3, ROT270 := 6 }

/-! ## Runtime state (libretro.c:96-111) -/

/-- The fields of the core's global `options` that `retro_load_game` writes. -/
structure GameOptions where
  samplerate : Int
  ui_orientation : Int
  skip_disclaimer : Int
  skip_gameinfo : Int
deriving DecidableEq, Repr

/-- The file-scope variables of `libretro.c` together with `options` and the
two input arrays it fills.  A callback pointer is the identity of the function
registered, `none` for a null pointer; `unsigned` variables hold naturals;
`retroKeyState` and `retroJsState` are the arrays of 512 and 64 `int`. -/
structure RuntimeState where
  driverIndex : Int
  systemDir : Option CStr
  retroColorMode : Nat
  hasExited : Bool
  options : GameOptions
  video_cb : Option Nat
  poll_cb : Option Nat
  input_cb : Option Nat
  audio_batch_cb : Option Nat
  environ_cb : Option Nat
  videoBufferWidth : Nat
  videoBufferHeight : Nat
  retroKeyState : List Int
  retroJsState : List Int
deriving DecidableEq, Repr

/-- The state at program start: every variable zero-initialised. -/
def initialState : RuntimeState :=
  { driverIndex := 0
    systemDir := none
    retroColorMode := 0
    hasExited := false
    options := { samplerate := 0, ui_orientation := 0, skip_disclaimer := 0, skip_gameinfo := 0 }
    video_cb := none
    poll_cb := none
    input_cb := none
    audio_batch_cb := none
    environ_cb := none
    videoBufferWidth := 0
    videoBufferHeight := 0
    retroKeyState := List.replicate 512 0
    retroJsState := List.replicate 64 0 }

/-- The commands `libretro.c` sends through `environ_cb`. -/
inductive EnvironmentCommand where
  | SET_ROTATION
  | SET_PIXEL_FORMAT
deriving DecidableEq, Repr

/-- The input devices `libretro.c` queries through `input_cb`. -/
inductive Device where
  | JOYPAD
  | KEYBOARD
deriving DecidableEq, Repr

/-- The two input arrays, defined by the core, that `retro_run` stores into. -/
inductive InputArray where
  | retroKeyState
  | retroJsState
deriving DecidableEq, Repr

/-- An effect that leaves this layer, in program order: a call of a host
callback (`environ_cb(cmd, &data)` with the value `data` pointed to, `poll_cb()`,
`input_cb(port, device, index, id)`, `video_cb(videoBuffer, width, height, pitch)`,
`audio_batch_cb(XsoundBuffer, frames)`), a call of the core (`run_game(game)`,
`mame_frame()`, `machine_reset()`, `mame_done()`), a store `array[index] = value`
into one of the core's input arrays, or `free(ptr)`. -/
inductive Event where
  | environ (cmd : EnvironmentCommand) (data : Nat)
  | run_game (game : Int)
  | input_poll
  | input_state (port : Nat) (device : Device) (index id : Nat)
  | store (array : InputArray) (index : Nat) (value : Int)
  | mame_frame
  | video_refresh (width height pitch : Nat)
  | audio_sample_batch (frames : Nat)
  | machine_reset
  | mame_done
  | free (ptr : Option CStr)
deriving DecidableEq, Repr

/-- The `run_game` calls among a list of calls, with their argument. -/
def runGameCalls (calls : List Event) : List Int :=
  calls.filterMap fun e =>
    match e with
    | .run_game g => some g
    | _ => none

/-- The core as this layer sees it: the status that `run_game(game)` returns,
and the values of `videoBufferWidth` and `videoBufferHeight` that one
`mame_frame()` leaves, given the state it is called in. -/
structure Core where
  run_game : Int → Int
  mame_frame : RuntimeState → Nat × Nat

/-! ## retro_get_system_av_info (libretro.c:127-142) -/

/-- The `int` fields of `videoConfig` (`struct osd_create_params`) that the
geometry reads. -/
structure osd_create_params where
  width : Int
  height : Int
deriving DecidableEq, Repr

/-- The four `unsigned` fields of `struct retro_game_geometry` that
`retro_get_system_av_info` writes; `aspect_ratio`, `fps` and `sample_rate`
are floating-point numbers and not part of the embedding. -/
structure retro_game_geometry where
  base_width : Nat
  base_height : Nat
  max_width : Nat
  max_height : Nat
deriving DecidableEq, Repr

/-- Conversion of an `int` to `unsigned` on assignment. -/
def toUnsigned (x : Int) : Nat := (x % 4294967296).toNat

/-- The expression `drivers[i]` for the C `int` `i`: defined for an index inside the registry,
`none` where the C expression reads outside it or dereferences the terminating
null pointer. -/
def driverAt (drivers : List game_driver) (i : Int) : Option game_driver :=
  if (0 : Int) ≤ i then drivers.get? i.toNat else none

/-- The function `retro_get_system_av_info`: the geometry written to `info`; `none` where
`drivers[driverIndex]` is not a registry entry. -/
def retro_get_system_av_info (K : OrientationFlags) (drivers : List game_driver)
    (videoConfig : osd_create_params) (s : RuntimeState) : Option retro_game_geometry :=
  match driverAt drivers s.driverIndex with
  | none => none
  | some drv =>
    let orientation := drv.flags &&& K.ORIENTATION_MASK
    let rotated := (K.ROT90 == orientation) || (K.ROT270 == orientation)
    let width := if rotated then videoConfig.height else videoConfig.width
    let height := if rotated then videoConfig.width else videoConfig.height
    some { base_width := toUnsigned width
           base_height := toUnsigned height
           max_width := toUnsigned width
           max_height := toUnsigned height }

/-! ## retro_load_game (libretro.c:199-235) -/

/-- The table `uiModes` of `retro_load_game`. -/
def uiModes (K : OrientationFlags) : List Nat := [K.ROT0, K.ROT90, K.ROT180, K.ROT270]

/-- The value of the local `rotateMode` of `retro_load_game` after its three
conditional assignments (libretro.c:213-218). -/
def rotateMode (K : OrientationFlags) (orientation : Nat) : Nat :=
  let rotateMode := 0
  let rotateMode := if K.ROT270 = orientation then 1 else rotateMode
  let rotateMode := if K.ROT180 = orientation then 2 else rotateMode
  let rotateMode := if K.ROT90 = orientation then 3 else rotateMode
  rotateMode

/-- The function `retro_load_game(game)` for `game->path = game_path`, from state `s`: the
value returned, the state left and the calls made, in order.  The result is
`none` where the C code has no defined behaviour (`strdup` of a null path, a
read outside `drivers` or `uiModes`).  The host reads the rotation passed to
`environ_cb` and does not write through the pointer. -/
def retro_load_game (K : OrientationFlags) (win : Bool) (drivers : List game_driver)
    (core : Core) (game_path : Option CStr) (s : RuntimeState) :
    Option (Bool × RuntimeState × List Event) :=
  let s := { s with driverIndex := getDriverIndex win drivers game_path }
  if (0 : Int) ≤ s.driverIndex then
    match game_path, driverAt drivers s.driverIndex with
    | some path, some drv =>
      let systemDir := normalizePath win path
      let systemDir := peelPathItem win systemDir
      let systemDir := peelPathItem win systemDir
      let s := { s with systemDir := some systemDir }
      let orientation := drv.flags &&& K.ORIENTATION_MASK
      let rotateMode := rotateMode K orientation
      match (uiModes K).get? rotateMode with
      | none => none
      | some ui =>
        let s := { s with options := { s.options with
                    samplerate := 48000
                    ui_orientation := (ui : Int)
                    skip_disclaimer := 1
                    skip_gameinfo := 1 } }
        some (decide ((0 : Int) = core.run_game s.driverIndex), s,
          [Event.environ EnvironmentCommand.SET_ROTATION rotateMode,
           Event.run_game s.driverIndex])
    | _, _ => none
  else
    some (false, s, [])

/-- A registry with `pacman` at index 5, every machine with orientation flags
0, used to evaluate the operations on a concrete input. -/
def sampleDrivers : List game_driver :=
  [⟨"puckman".toList, 0⟩, ⟨"puckmana".toList, 0⟩, ⟨"puckmanf".toList, 0⟩,
   ⟨"puckmanh".toList, 0⟩, ⟨"pacmanjp".toList, 0⟩, ⟨"pacman".toList, 0⟩]

/-- A core whose `run_game` returns status 0 and whose frames are 224 by 288. -/
def sampleCore : Core :=
  { run_game := fun _ => 0
    mame_frame := fun _ => (224, 288) }

/-! ## Callback registry (libretro.c:19-30) -/

/-- The function `retro_set_video_refresh`. -/
def retro_set_video_refresh (cb : Option Nat) (s : RuntimeState) : RuntimeState :=
  { s with video_cb := cb }

/-- The function `retro_set_audio_sample`: the callback is ignored. -/
def retro_set_audio_sample (_cb : Option Nat) (s : RuntimeState) : RuntimeState := s

/-- The function `retro_set_audio_sample_batch`. -/
def retro_set_audio_sample_batch (cb : Option Nat) (s : RuntimeState) : RuntimeState :=
  { s with audio_batch_cb := cb }

/-- The function `retro_set_input_poll`. -/
def retro_set_input_poll (cb : Option Nat) (s : RuntimeState) : RuntimeState :=
  { s with poll_cb := cb }

/-- The function `retro_set_input_state`. -/
def retro_set_input_state (cb : Option Nat) (s : RuntimeState) : RuntimeState :=
  { s with input_cb := cb }

/-- The function `retro_set_environment`. -/
def retro_set_environment (cb : Option Nat) (s : RuntimeState) : RuntimeState :=
  { s with environ_cb := cb }

/-- The host as this layer sees it: whether `environ_cb(cmd, &data)` returns
true for the value `data` pointed to, which it does not overwrite, and the
value `input_cb(port, device, index, id)` returns. -/
structure Host where
  environ_cb : EnvironmentCommand → Nat → Bool
  input_cb : Nat → Device → Nat → Nat → Int

/-- Whether an event is a call of one of the five host callbacks. -/
def Event.isHostCall : Event → Bool
  | .environ _ _ => true
  | .input_poll => true
  | .input_state _ _ _ _ => true
  | .video_refresh _ _ _ => true
  | .audio_sample_batch _ => true
  | _ => false

/-! ## retro_init (libretro.c:144-156) -/

/-- The values of `enum retro_pixel_format` of libretro.h that `libretro.c`
names.  Their values are fixed by that header and enter this development as
parameters. -/
structure PixelFormats where
  RETRO_PIXEL_FORMAT_0RGB1555 : Nat
  RETRO_PIXEL_FORMAT_XRGB8888 : Nat
  RETRO_PIXEL_FORMAT_RGB565 : Nat
deriving DecidableEq, Repr

/-- The three pixel formats are three different values. -/
def PixelFormats.Distinct (F : PixelFormats) : Prop :=
  F.RETRO_PIXEL_FORMAT_XRGB8888 ≠ F.RETRO_PIXEL_FORMAT_RGB565 ∧
  F.RETRO_PIXEL_FORMAT_XRGB8888 ≠ F.RETRO_PIXEL_FORMAT_0RGB1555 ∧
  F.RETRO_PIXEL_FORMAT_RGB565 ≠ F.RETRO_PIXEL_FORMAT_0RGB1555

instance (F : PixelFormats) : Decidable F.Distinct := by
  unfold PixelFormats.Distinct
  infer_instance

/-- One assignment of the pixel format values: 0, 1 and 2 in the order of the
enumeration. -/
def sampleFormats : PixelFormats :=
  { RETRO_PIXEL_FORMAT_0RGB1555 := 0
    RETRO_PIXEL_FORMAT_XRGB8888 := 1
    RETRO_PIXEL_FORMAT_RGB565 := 2 }

/-- The function `retro_init`: the state left and the calls made, in order. -/
def retro_init (F : PixelFormats) (host : Host) (s : RuntimeState) :
    RuntimeState × List Event :=
  let s := { s with retroColorMode := F.RETRO_PIXEL_FORMAT_XRGB8888 }
  if !host.environ_cb EnvironmentCommand.SET_PIXEL_FORMAT s.retroColorMode then
    let s₁ := { s with retroColorMode := F.RETRO_PIXEL_FORMAT_RGB565 }
    if !host.environ_cb EnvironmentCommand.SET_PIXEL_FORMAT s₁.retroColorMode then
      ({ s₁ with retroColorMode := F.RETRO_PIXEL_FORMAT_0RGB1555 },
        [Event.environ EnvironmentCommand.SET_PIXEL_FORMAT s.retroColorMode,
         Event.environ EnvironmentCommand.SET_PIXEL_FORMAT s₁.retroColorMode])
    else
      (s₁,
        [Event.environ EnvironmentCommand.SET_PIXEL_FORMAT s.retroColorMode,
         Event.environ EnvironmentCommand.SET_PIXEL_FORMAT s₁.retroColorMode])
  else
    (s, [Event.environ EnvironmentCommand.SET_PIXEL_FORMAT s.retroColorMode])

/-- Specification of the negotiation: the first format in the order 32-bit,
16-bit, 15-bit that the host accepts, the 15-bit format when it accepts none. -/
def specPixelFormat (F : PixelFormats) (host : Host) : Nat :=
  ([F.RETRO_PIXEL_FORMAT_XRGB8888, F.RETRO_PIXEL_FORMAT_RGB565,
    F.RETRO_PIXEL_FORMAT_0RGB1555].find?
      (host.environ_cb EnvironmentCommand.SET_PIXEL_FORMAT)).getD
    F.RETRO_PIXEL_FORMAT_0RGB1555

/-- The pixel formats offered to the host among a list of calls, in order. -/
def pixelFormatOffers (calls : List Event) : List Nat :=
  calls.filterMap fun e =>
    match e with
    | .environ .SET_PIXEL_FORMAT f => some f
    | _ => none

/-! ## retro_reset (libretro.c:162-165) -/

/-- The function `retro_reset`: the state left and the calls made. -/
def retro_reset (s : RuntimeState) : RuntimeState × List Event :=
  (s, [Event.machine_reset])

/-! ## retro_unload_game (libretro.c:237-243) -/

/-- The function `retro_unload_game`: `mame_done()`, then `free(systemDir)`,
then `systemDir = 0`. -/
def retro_unload_game (s : RuntimeState) : RuntimeState × List Event :=
  ({ s with systemDir := none }, [Event.mame_done, Event.free s.systemDir])

/-- The strings released by the `free` calls among a list of calls; `free` of
a null pointer releases nothing. -/
def released (calls : List Event) : List CStr :=
  calls.filterMap fun e =>
    match e with
    | .free (some p) => some p
    | _ => none

/-- A valid registry index, as opposed to the not-found value. -/
def validIndex (drivers : List game_driver) (i : Int) : Prop :=
  0 ≤ i ∧ i < (drivers.length : Int)

instance (drivers : List game_driver) (i : Int) : Decidable (validIndex drivers i) := by
  unfold validIndex
  infer_instance

/-! ## retro_run (libretro.c:167-196) -/

/-- The part of `struct KeyboardInfo` that `retro_run` reads.  The table
`retroKeys` is defined by the core and enters as a parameter: the list of its
entries before the terminating entry whose `name` is null. -/
structure KeyboardInfo where
  name : CStr
  code : Nat
deriving DecidableEq, Repr

/-- A store `a[i] = v` into an `int` array; `none` for a store outside it. -/
def storeInt (a : List Int) (i : Nat) (v : Int) : Option (List Int) :=
  if i < a.length then some (a.set i v) else none

/-- One pass of the keyboard loop: `retroKeyState[thisInput->code] =
input_cb(0, RETRO_DEVICE_KEYBOARD, 0, thisInput->code)`, on the array and the
events so far. -/
def keyboardStep (host : Host) (st : List Int × List Event) (thisInput : KeyboardInfo) :
    Option (List Int × List Event) :=
  let v := host.input_cb 0 Device.KEYBOARD 0 thisInput.code
  match storeInt st.1 thisInput.code v with
  | none => none
  | some a =>
    some (a, st.2 ++ [Event.input_state 0 Device.KEYBOARD 0 thisInput.code,
                      Event.store InputArray.retroKeyState thisInput.code v])

/-- The variables of the joystick loop: the offset of the pointer `jsState`
from `retroJsState`, the array, and the events so far. -/
structure JoystickCursor where
  jsState : Nat
  retroJsState : List Int
  calls : List Event
deriving DecidableEq, Repr

/-- The body of the inner joystick loop:
`*jsState++ = input_cb(i, RETRO_DEVICE_JOYPAD, 0, j)`. -/
def joystickStep (host : Host) (i : Nat) (st : JoystickCursor) (j : Nat) :
    Option JoystickCursor :=
  let v := host.input_cb i Device.JOYPAD 0 j
  match storeInt st.retroJsState st.jsState v with
  | none => none
  | some a =>
    some { jsState := st.jsState + 1
           retroJsState := a
           calls := st.calls ++ [Event.input_state i Device.JOYPAD 0 j,
                                 Event.store InputArray.retroJsState st.jsState v] }

/-- The inner joystick loop `for(int j = 0; j != 16; j ++)` for port `i`. -/
def joystickPort (host : Host) (st : JoystickCursor) (i : Nat) : Option JoystickCursor :=
  (List.range 16).foldlM (joystickStep host i) st

/-- The outer joystick loop `for(int i = 0; i != 4; i ++)`. -/
def joystickLoop (host : Host) (st : JoystickCursor) : Option JoystickCursor :=
  (List.range 4).foldlM (joystickPort host) st

/-- Multiplication of two `unsigned` values. -/
def mulUnsigned (a b : Nat) : Nat := (a * b) % 4294967296

/-- The function `retro_run`: the state left and the effects, in order; `none`
where a store falls outside `retroKeyState` or `retroJsState`. -/
def retro_run (F : PixelFormats) (retroKeys : List KeyboardInfo) (host : Host) (core : Core)
    (s : RuntimeState) : Option (RuntimeState × List Event) :=
  match retroKeys.foldlM (keyboardStep host) (s.retroKeyState, [Event.input_poll]) with
  | none => none
  | some (keyState, calls) =>
    let s := { s with retroKeyState := keyState }
    match joystickLoop host { jsState := 0, retroJsState := s.retroJsState, calls := calls } with
    | none => none
    | some js =>
      let s := { s with retroJsState := js.retroJsState }
      let calls := js.calls ++ [Event.mame_frame]
      let s := { s with videoBufferWidth := (core.mame_frame s).1
                        videoBufferHeight := (core.mame_frame s).2 }
      if !s.hasExited && s.videoBufferWidth != 0 && s.videoBufferHeight != 0 then
        some (s, calls ++
          [Event.video_refresh s.videoBufferWidth s.videoBufferHeight
             (mulUnsigned s.videoBufferWidth
               (if F.RETRO_PIXEL_FORMAT_XRGB8888 = s.retroColorMode then 4 else 2)),
           Event.audio_sample_batch 800])
      else
        some (s, calls)

/-- The joypad queries `input_cb(port, RETRO_DEVICE_JOYPAD, index, id)` among a
list of events, in order. -/
def joypadQueries (calls : List Event) : List (Nat × Nat × Nat) :=
  calls.filterMap fun e =>
    match e with
    | .input_state port .JOYPAD index id => some (port, index, id)
    | _ => none

/-- The stores into `retroJsState` among a list of events, in order, as pairs
of index and value. -/
def jsStores (calls : List Event) : List (Nat × Int) :=
  calls.filterMap fun e =>
    match e with
    | .store .retroJsState i v => some (i, v)
    | _ => none

/-- The calls of the video and audio sinks among a list of events, in order. -/
def sinkCalls (calls : List Event) : List Event :=
  calls.filter fun e =>
    match e with
    | .video_refresh _ _ _ => true
    | .audio_sample_batch _ => true
    | _ => false

/-- Specification of the keyboard pass: for every entry of the key table, in
table order, one query of the host and one store keyed by the code. -/
def specKeyboardEvents (host : Host) (retroKeys : List KeyboardInfo) : List Event :=
  retroKeys.flatMap fun k =>
    [Event.input_state 0 Device.KEYBOARD 0 k.code,
     Event.store InputArray.retroKeyState k.code (host.input_cb 0 Device.KEYBOARD 0 k.code)]

/-- Specification of the joystick pass: for the 4 ports and the 16 buttons of
each, port-major and button-minor, one query of the host and one store at the
next position of `retroJsState`. -/
def specJoystickEvents (host : Host) : List Event :=
  (List.range 4).flatMap fun i =>
    (List.range 16).flatMap fun j =>
      [Event.input_state i Device.JOYPAD 0 j,
       Event.store InputArray.retroJsState (16 * i + j) (host.input_cb i Device.JOYPAD 0 j)]

/-! ## Reachable states -/

/-- The runtime states reachable from the zero-initialised state by any
sequence of `retro_init`, `retro_load_game`, `retro_run`, `retro_reset` and
`retro_unload_game`, with any host, core and path at each step;
`retro_load_game` is taken only from states that satisfy `canLoad`. -/
inductive Reachable (K : OrientationFlags) (win : Bool) (drivers : List game_driver)
    (F : PixelFormats) (retroKeys : List KeyboardInfo) (canLoad : RuntimeState → Prop) :
    RuntimeState → Prop where
  | initial : Reachable K win drivers F retroKeys canLoad initialState
  | init (host : Host) {s : RuntimeState} :
      Reachable K win drivers F retroKeys canLoad s →
      Reachable K win drivers F retroKeys canLoad (retro_init F host s).1
  | load (core : Core) (game_path : Option CStr) {s s' : RuntimeState} {b : Bool}
      {calls : List Event} :
      Reachable K win drivers F retroKeys canLoad s → canLoad s →
      retro_load_game K win drivers core game_path s = some (b, s', calls) →
      Reachable K win drivers F retroKeys canLoad s'
  | run (host : Host) (core : Core) {s s' : RuntimeState} {calls : List Event} :
      Reachable K win drivers F retroKeys canLoad s →
      retro_run F retroKeys host core s = some (s', calls) →
      Reachable K win drivers F retroKeys canLoad s'
  | reset {s : RuntimeState} :
      Reachable K win drivers F retroKeys canLoad s →
      Reachable K win drivers F retroKeys canLoad (retro_reset s).1
  | unload {s : RuntimeState} :
      Reachable K win drivers F retroKeys canLoad s →
      Reachable K win drivers F retroKeys canLoad (retro_unload_game s).1

/-- A host that accepts only the 16-bit RGB565 format of `sampleFormats` and
reports button `id` of port `port` as `16 * port + id + 1`. -/
def sampleHost : Host :=
  { environ_cb := fun _ data => data == 2
    input_cb := fun port _ _ id => (16 * port + id + 1 : Nat) }

/-- A key table with two entries. -/
def sampleKeys : List KeyboardInfo := [⟨"A".toList, 97⟩, ⟨"ENTER".toList, 13⟩]

/-! ## Theorems -/

theorem replaced_ne_sep (win : Bool) : replaced win ≠ PATH_SEPARATOR win := by
  cases win <;> decide

theorem sep_ne_dot (win : Bool) : PATH_SEPARATOR win ≠ '.' := by
  cases win <;> decide

theorem replaced_ne_dot (win : Bool) : replaced win ≠ '.' := by
  cases win <;> decide

theorem strchr_eq_none {s : CStr} {c : Char} : strchr s c = none ↔ c ∉ s := by
  induction s with
  | nil => simp [strchr]
  | cons x xs ih =>
    simp only [strchr, List.mem_cons, not_or]
    split
    · rename_i h; simp [h]
    · rename_i h
      simp [ih, Ne.symm h]

theorem specNormalize_of_strchr_none {win : Bool} {s : CStr}
    (h : strchr s (replaced win) = none) : specNormalize win s = s := by
  rw [strchr_eq_none] at h
  unfold specNormalize
  conv_rhs => rw [← List.map_id s]
  apply List.map_congr_left
  intro c hc
  have : c ≠ replaced win := fun e => h (e ▸ hc)
  simp [this]

theorem specNormalize_set_strchr {win : Bool} {s : CStr} {i : Nat}
    (h : strchr s (replaced win) = some i) :
    specNormalize win (s.set i (PATH_SEPARATOR win)) = specNormalize win s := by
  induction s generalizing i with
  | nil => simp [strchr] at h
  | cons x xs ih =>
    simp only [strchr] at h
    split at h
    · rename_i hx
      cases h
      simp [specNormalize, hx, (replaced_ne_sep win).symm]
    · cases hs : strchr xs (replaced win) with
      | none => simp [hs] at h
      | some j =>
        simp [hs] at h
        subst h
        have := ih hs
        simp only [specNormalize, List.set_cons_succ, List.map_cons] at this ⊢
        rw [this]

/-- The restart-from-the-beginning loop of `normalizePath` computes the
character-wise replacement. -/
theorem normalizePath_eq_map (win : Bool) (p : CStr) :
    normalizePath win p = specNormalize win p := by
  induction p using normalizePath.induct win with
  | case1 aPath tok h ih =>
    rw [normalizePath]
    split
    · rename_i tok2 h2
      rw [h] at h2
      cases h2
      rw [ih, specNormalize_set_strchr h]
    · rename_i h2
      rw [h] at h2
      cases h2
  | case2 aPath h =>
    rw [normalizePath]
    split
    · rename_i tok2 h2
      rw [h] at h2
      cases h2
    · exact (specNormalize_of_strchr_none h).symm

/-! ### `strchr` and `strrchr` on a string split at the character found -/

theorem strchr_append_cons {a b : CStr} {c : Char} (h : c ∉ a) :
    strchr (a ++ c :: b) c = some a.length := by
  induction a with
  | nil => simp [strchr]
  | cons x xs ih =>
    simp only [List.mem_cons, not_or] at h
    simp [strchr, Ne.symm h.1, ih h.2]

theorem strrchr_eq_none {s : CStr} {c : Char} : strrchr s c = none ↔ c ∉ s := by
  induction s with
  | nil => simp [strrchr]
  | cons x xs ih =>
    simp only [strrchr, List.mem_cons, not_or]
    cases hs : strrchr xs c with
    | some i =>
      have : ¬ (c ∉ xs) := fun h => by rw [ih.mpr h] at hs; cases hs
      simp [this]
    | none =>
      have hx := ih.mp hs
      by_cases h : x = c
      · simp [h]
      · simp [h, Ne.symm h, hx]

theorem strrchr_append_cons {a b : CStr} {c : Char} (h : c ∉ b) :
    strrchr (a ++ c :: b) c = some a.length := by
  induction a with
  | nil => simp [strrchr, strrchr_eq_none.mpr h]
  | cons x xs ih => simp [strrchr, ih]

/-- A string that contains `c` splits at the last `c`. -/
theorem exists_last_split {s : CStr} {c : Char} (h : c ∈ s) :
    ∃ a b, s = a ++ c :: b ∧ c ∉ b := by
  induction s with
  | nil => simp at h
  | cons x xs ih =>
    by_cases hxs : c ∈ xs
    · obtain ⟨a, b, hab, hb⟩ := ih hxs
      exact ⟨x :: a, b, by simp [hab], hb⟩
    · have hx : c = x := by
        rcases List.mem_cons.mp h with h | h
        · exact h
        · exact absurd h hxs
      exact ⟨[], xs, by simp [hx], hxs⟩

/-- A string that contains `c` splits at the first `c`. -/
theorem exists_first_split {s : CStr} {c : Char} (h : c ∈ s) :
    ∃ a b, s = a ++ c :: b ∧ c ∉ a := by
  induction s with
  | nil => simp at h
  | cons x xs ih =>
    by_cases hx : c = x
    · exact ⟨[], xs, by simp [hx], by simp⟩
    · have hxs : c ∈ xs := by
        rcases List.mem_cons.mp h with h | h
        · exact absurd h hx
        · exact h
      obtain ⟨a, b, hab, ha⟩ := ih hxs
      exact ⟨x :: a, b, by simp [hab], by simp [hx, ha]⟩

theorem takeWhile_ne_append_cons {a b : CStr} {c : Char} (h : c ∉ a) :
    (a ++ c :: b).takeWhile (· ≠ c) = a := by
  induction a with
  | nil => simp
  | cons x xs ih =>
    simp only [List.mem_cons, not_or] at h
    have hx : x ≠ c := Ne.symm h.1
    rw [List.cons_append, List.takeWhile_cons, ih h.2]
    simp [hx]

theorem takeWhile_ne_of_not_mem {a : CStr} {c : Char} (h : c ∉ a) :
    a.takeWhile (· ≠ c) = a := by
  induction a with
  | nil => simp
  | cons x xs ih =>
    simp only [List.mem_cons, not_or] at h
    have hx : x ≠ c := Ne.symm h.1
    rw [List.takeWhile_cons, ih h.2]
    simp [hx]

/-- The cut at the first `c` found by `strchr` is `takeWhile`. -/
theorem cut_strchr (s : CStr) (c : Char) :
    (match strchr s c with
      | some i => s.take i
      | none => s) = s.takeWhile (· ≠ c) := by
  by_cases h : c ∈ s
  · obtain ⟨a, b, rfl, ha⟩ := exists_first_split h
    rw [strchr_append_cons ha, takeWhile_ne_append_cons ha]
    simp
  · rw [strchr_eq_none.mpr h, takeWhile_ne_of_not_mem h]

theorem afterLast_append_cons {a b : CStr} {c : Char} (h : c ∉ b) :
    afterLast (a ++ c :: b) c = b := by
  simp [afterLast, strrchr_append_cons h]

theorem afterLast_of_not_mem {s : CStr} {c : Char} (h : c ∉ s) : afterLast s c = s := by
  simp [afterLast, strrchr_eq_none.mpr h]

theorem specAfterLastSep_eq (win : Bool) (p : CStr) :
    specAfterLastSep win p = afterLast p (PATH_SEPARATOR win) := by
  unfold specAfterLastSep
  by_cases h : PATH_SEPARATOR win ∈ p
  · obtain ⟨a, b, rfl, hb⟩ := exists_last_split h
    rw [afterLast_append_cons hb]
    have hb' : PATH_SEPARATOR win ∉ b.reverse := by simpa using hb
    have : (a ++ PATH_SEPARATOR win :: b).reverse
        = b.reverse ++ PATH_SEPARATOR win :: a.reverse := by simp
    rw [this, takeWhile_ne_append_cons hb']
    simp
  · rw [afterLast_of_not_mem h]
    have h' : PATH_SEPARATOR win ∉ p.reverse := by simpa using h
    rw [takeWhile_ne_of_not_mem h']
    simp

theorem driverName_eq (win : Bool) (aPath : Option CStr) :
    driverName win aPath
      = ((afterLast (specNormalize win (aPath.getD ['.'])) (PATH_SEPARATOR win)).take 127).takeWhile
          (· ≠ '.') := by
  unfold driverName
  simp only [normalizePath_eq_map, strncpy]
  rw [← cut_strchr]

/-! ### The search loop -/

theorem indexOf?_cons (name x : CStr) (xs : List CStr) :
    (x :: xs).indexOf? name
      = if x = name then some 0 else (xs.indexOf? name).map (· + 1) := by
  simp only [List.indexOf?, List.findIdx?_cons, beq_iff_eq]
  split
  · rfl
  · rw [← List.findIdx?_succ]

theorem searchList_eq (name : CStr) (ds : List game_driver) (i : Int) :
    searchList name ds i
      = match (ds.map (·.name)).indexOf? name with
        | some k => i + (k : Int)
        | none => -1 := by
  induction ds generalizing i with
  | nil => simp [searchList, List.indexOf?]
  | cons d ds ih =>
    rw [searchList, List.map_cons, indexOf?_cons]
    by_cases h : name = d.name
    · simp [h]
    · rw [if_neg h, if_neg (Ne.symm h), ih]
      cases (ds.map (·.name)).indexOf? name with
      | none => rfl
      | some k => simp only [Option.map_some']; push_cast; ring

/-- The value `specLookup` returns is the least matching index, or `-1` when
nothing matches. -/
theorem specLookup_least (ds : List game_driver) (name : CStr) :
    (specLookup ds name = -1 ∧ ∀ d ∈ ds, d.name ≠ name) ∨
    (∃ k : Nat, specLookup ds name = (k : Int) ∧ k < ds.length ∧
      (ds.get? k).map (·.name) = some name ∧
      ∀ j : Nat, j < k → (ds.get? j).map (·.name) ≠ some name) := by
  induction ds with
  | nil => left; simp [specLookup, List.indexOf?]
  | cons d ds ih =>
    unfold specLookup at ih ⊢
    rw [List.map_cons, indexOf?_cons]
    by_cases h : d.name = name
    · right
      refine ⟨0, by simp [h], by simp, by simp [h], by intro j hj; omega⟩
    · rw [if_neg h]
      rcases ih with ⟨h1, h2⟩ | ⟨k, h1, h2, h3, h4⟩
      · left
        cases hi : (ds.map (·.name)).indexOf? name with
        | none =>
          refine ⟨by simp, ?_⟩
          intro e he
          rcases List.mem_cons.mp he with rfl | he
          · exact h
          · exact h2 e he
        | some k => rw [hi] at h1; simp at h1
      · right
        cases hi : (ds.map (·.name)).indexOf? name with
        | none => rw [hi] at h1; simp at h1
        | some k' =>
          rw [hi] at h1
          simp at h1
          subst h1
          refine ⟨k' + 1, by simp, by simpa using h2, by simpa using h3, ?_⟩
          intro j hj
          cases j with
          | zero => simpa using h
          | succ j => simpa using h4 j (by omega)

theorem getDriverIndex_eq (win : Bool) (drivers : List game_driver) (aPath : Option CStr) :
    getDriverIndex win drivers aPath = specLookup drivers (driverName win aPath) := by
  unfold getDriverIndex specLookup
  rw [searchList_eq]
  cases (drivers.map (·.name)).indexOf? (driverName win aPath) <;> simp

/-! ### Properties of the resolver -/

theorem getDriverIndex_cases (win : Bool) (drivers : List game_driver)
    (aPath : Option CStr) :
    (getDriverIndex win drivers aPath = -1 ∧ ∀ d ∈ drivers, d.name ≠ driverName win aPath) ∨
    ∃ i : Nat, getDriverIndex win drivers aPath = (i : Int) ∧ i < drivers.length ∧
      (drivers.get? i).map (·.name) = some (driverName win aPath) := by
  rw [getDriverIndex_eq]
  rcases specLookup_least drivers (driverName win aPath) with ⟨h, h'⟩ | ⟨k, h1, h2, h3, _⟩
  · exact Or.inl ⟨h, h'⟩
  · exact Or.inr ⟨k, h1, h2, h3⟩

/-- C1: for every registry and every path, the null path included,
`getDriverIndex` returns `-1` or an index `i` below the registry length, and
in the second case the name of registry entry `i` is the driver name derived
from the path. -/
theorem getDriverIndex_in_range (win : Bool) (drivers : List game_driver)
    (aPath : Option CStr) :
    getDriverIndex win drivers aPath = -1 ∨
    ∃ i : Nat, getDriverIndex win drivers aPath = (i : Int) ∧ i < drivers.length ∧
      (drivers.get? i).map (·.name) = some (driverName win aPath) := by
  rcases getDriverIndex_cases win drivers aPath with ⟨h, _⟩ | h
  · exact Or.inl h
  · exact Or.inr h

theorem driverName_some (win : Bool) (p : CStr) :
    driverName win (some p)
      = specStripExtension ((specAfterLastSep win (specNormalize win p)).take 127) := by
  rw [driverName_eq, specAfterLastSep_eq]
  rfl

/-- C2 (amended): for every registry and every non-null path,
`getDriverIndex` equals the reference resolver in which the base name is
limited to its first 127 characters before the cut at the first `'.'`; it
equals the reference resolver itself whenever the name that one looks up has at
most 127 characters. -/
theorem getDriverIndex_eq_specResolve127 (win : Bool) (drivers : List game_driver)
    (p : CStr) :
    getDriverIndex win drivers (some p) = specResolve127 win drivers p ∧
    ((specStripExtension (specAfterLastSep win (specNormalize win p))).length ≤ 127 →
      getDriverIndex win drivers (some p) = specResolve win drivers p) := by
  refine ⟨?_, ?_⟩
  · rw [getDriverIndex_eq, driverName_some]
    rfl
  · intro hlen
    rw [getDriverIndex_eq, driverName_some]
    unfold specResolve specStripExtension at *
    rw [← List.take_takeWhile, List.take_of_length_le hlen]

/-- C2 (counterexample): with the 127-character name `aaa...a` registered at
index 0, the 128-character path `aaa...a` resolves to index 0, while the
reference resolver finds no entry named like the 128-character base name. -/
theorem getDriverIndex_ne_specResolve_long_name :
    getDriverIndex false [⟨List.replicate 127 'a', 0⟩] (some (List.replicate 128 'a')) = 0 ∧
    specResolve false [⟨List.replicate 127 'a', 0⟩] (List.replicate 128 'a') = -1 := by
  rw [getDriverIndex_eq, driverName_some]
  decide

/-- C2 (witness): `"foo\\bar/pacman.zip.old"` resolves to the index of
`pacman`, as the reference resolver says. -/
theorem getDriverIndex_eq_specResolve127_witness :
    getDriverIndex false [⟨"puckman".toList, 0⟩, ⟨"pacman".toList, 0⟩]
        (some "foo\\bar/pacman.zip.old".toList) = 1 ∧
    specResolve false [⟨"puckman".toList, 0⟩, ⟨"pacman".toList, 0⟩]
        "foo\\bar/pacman.zip.old".toList = 1 := by
  have h := getDriverIndex_eq_specResolve127 false
    [⟨"puckman".toList, 0⟩, ⟨"pacman".toList, 0⟩] "foo\\bar/pacman.zip.old".toList
  have h2 : specResolve false [⟨"puckman".toList, 0⟩, ⟨"pacman".toList, 0⟩]
        "foo\\bar/pacman.zip.old".toList = 1 := by decide
  exact ⟨(h.2 (by decide)).trans h2, h2⟩

theorem specNormalize_idem (win : Bool) (p : CStr) :
    specNormalize win (specNormalize win p) = specNormalize win p := by
  unfold specNormalize
  rw [List.map_map]
  apply List.map_congr_left
  intro c _
  by_cases h : c = replaced win
  · simp [h, (replaced_ne_sep win).symm]
  · simp [h]

theorem specNormalize_congr (win : Bool) {p q : CStr} (h : SameUpToSeparators p q) :
    specNormalize win p = specNormalize win q := by
  unfold SameUpToSeparators at h
  induction h with
  | nil => rfl
  | @cons a b l₁ l₂ hab _ ih =>
    unfold specNormalize at ih ⊢
    rw [List.map_cons, List.map_cons, ih]
    congr 1
    rcases hab with rfl | ⟨ha, hb⟩
    · rfl
    · rcases ha with rfl | rfl <;> rcases hb with rfl | rfl <;> cases win <;> decide

theorem driverName_congr (win : Bool) {a b : Option CStr}
    (h : specNormalize win (a.getD ['.']) = specNormalize win (b.getD ['.'])) :
    driverName win a = driverName win b := by
  rw [driverName_eq, driverName_eq, h]

/-- C3: for every registry and every path, `getDriverIndex` gives the same
index on the path and on the path with every foreign separator replaced by the
host separator; hence two paths that differ only in which of `'/'` and `'\\'`
stands at each separator position resolve to the same index. -/
theorem getDriverIndex_separator_invariant (win : Bool) (drivers : List game_driver) :
    (∀ aPath : Option CStr,
      getDriverIndex win drivers (aPath.map (specNormalize win))
        = getDriverIndex win drivers aPath) ∧
    (∀ p q : CStr, SameUpToSeparators p q →
      getDriverIndex win drivers (some p) = getDriverIndex win drivers (some q)) := by
  refine ⟨?_, ?_⟩
  · intro aPath
    unfold getDriverIndex
    cases aPath with
    | none => rfl
    | some p =>
      rw [driverName_congr win (a := (some p).map (specNormalize win)) (b := some p)]
      simp [specNormalize_idem]
  · intro p q h
    unfold getDriverIndex
    rw [driverName_congr win (a := some p) (b := some q)]
    simpa using specNormalize_congr win h

/-- C3 (witness): `foo\bar/pacman.zip` and `foo/bar\pacman.zip` differ only in
the separators written and resolve to the same index. -/
theorem getDriverIndex_separator_invariant_witness :
    SameUpToSeparators "foo\\bar/pacman.zip".toList "foo/bar\\pacman.zip".toList ∧
    getDriverIndex false [⟨"puckman".toList, 0⟩, ⟨"pacman".toList, 0⟩]
        (some "foo\\bar/pacman.zip".toList)
      = getDriverIndex false [⟨"puckman".toList, 0⟩, ⟨"pacman".toList, 0⟩]
        (some "foo/bar\\pacman.zip".toList) :=
  ⟨by unfold SameUpToSeparators; decide,
   (getDriverIndex_separator_invariant false _).2 _ _ (by unfold SameUpToSeparators; decide)⟩

theorem afterLast_append {s t : CStr} {c : Char} (h : c ∉ t) :
    afterLast (s ++ t) c = afterLast s c ++ t := by
  by_cases hs : c ∈ s
  · obtain ⟨a, b, rfl, hb⟩ := exists_last_split hs
    have hbt : c ∉ b ++ t := by simp [hb, h]
    rw [afterLast_append_cons hb, List.append_assoc, List.cons_append,
      afterLast_append_cons hbt]
  · have hst : c ∉ s ++ t := by simp [hs, h]
    rw [afterLast_of_not_mem hs, afterLast_of_not_mem hst]

theorem afterLast_subset {s : CStr} {c x : Char} (h : x ∈ afterLast s c) : x ∈ s := by
  unfold afterLast at h
  split at h
  · exact List.mem_of_mem_drop h
  · exact h

theorem not_dot_mem_specNormalize {win : Bool} {s : CStr} (h : '.' ∉ s) :
    '.' ∉ specNormalize win s := by
  unfold specNormalize
  intro hm
  obtain ⟨c, hc, hcd⟩ := List.mem_map.mp hm
  by_cases hr : c = replaced win
  · simp [hr] at hcd
    exact sep_ne_dot win hcd
  · simp [hr] at hcd
    exact h (hcd ▸ hc)

/-- C4: resolution is extension-agnostic: for every registry, every directory
prefix `d` and every base name `n` without `'.'`, the paths `d/n.zip` and `d/n`
(written with the host separator) resolve to the same index.  A separator
inside `n` does not change this. -/
theorem getDriverIndex_zip_agnostic (win : Bool) (drivers : List game_driver)
    (d n : CStr) (hdot : '.' ∉ n) :
    getDriverIndex win drivers (some (d ++ PATH_SEPARATOR win :: n ++ ".zip".toList))
      = getDriverIndex win drivers (some (d ++ PATH_SEPARATOR win :: n)) := by
  unfold getDriverIndex
  congr 1
  rw [driverName_eq, driverName_eq]
  simp only [Option.getD_some]
  have hzip : specNormalize win (d ++ PATH_SEPARATOR win :: n ++ ".zip".toList)
      = specNormalize win (d ++ PATH_SEPARATOR win :: n) ++ ".zip".toList := by
    have : specNormalize win ".zip".toList = ".zip".toList := by cases win <;> decide
    unfold specNormalize at this ⊢
    rw [List.map_append, this]
  have hsep : PATH_SEPARATOR win ∉ ".zip".toList := by cases win <;> decide
  rw [hzip, afterLast_append hsep]
  have hX : '.' ∉ afterLast (specNormalize win (d ++ PATH_SEPARATOR win :: n))
      (PATH_SEPARATOR win) := by
    intro hm
    have h1 : specNormalize win (d ++ PATH_SEPARATOR win :: n)
        = specNormalize win d ++ PATH_SEPARATOR win :: specNormalize win n := by
      simp [specNormalize, (replaced_ne_sep win).symm]
    rw [h1] at hm
    by_cases hs : PATH_SEPARATOR win ∈ specNormalize win n
    · obtain ⟨a, b, hab, hb⟩ := exists_last_split hs
      rw [hab, ← List.cons_append, ← List.append_assoc, afterLast_append_cons hb] at hm
      have hn : '.' ∈ specNormalize win n := by rw [hab]; simp [hm]
      exact not_dot_mem_specNormalize hdot hn
    · rw [afterLast_append_cons hs] at hm
      exact not_dot_mem_specNormalize hdot hm
  generalize afterLast (specNormalize win (d ++ PATH_SEPARATOR win :: n))
    (PATH_SEPARATOR win) = X at hX
  rw [← List.take_takeWhile, ← List.take_takeWhile, takeWhile_ne_of_not_mem hX]
  have : (X ++ ".zip".toList) = X ++ '.' :: "zip".toList := rfl
  rw [this, takeWhile_ne_append_cons hX]

/-- C4 (witness): `foo/bar/pacman.zip` and `foo/bar/pacman` resolve to the same
index. -/
theorem getDriverIndex_zip_agnostic_witness :
    '.' ∉ "pacman".toList ∧
    getDriverIndex false [⟨"puckman".toList, 0⟩, ⟨"pacman".toList, 0⟩]
        (some "foo/bar/pacman.zip".toList)
      = getDriverIndex false [⟨"puckman".toList, 0⟩, ⟨"pacman".toList, 0⟩]
        (some "foo/bar/pacman".toList) :=
  ⟨by decide,
   getDriverIndex_zip_agnostic false _ "foo/bar".toList "pacman".toList (by decide)⟩

/-- C5: for every path `d/b/c` written with the host separator, `b` and `c`
without separator, `peelPathItem` applied twice yields exactly `d`; a path
without separator is returned unchanged; and for every input the result is a
prefix of the input. -/
theorem peelPathItem_twice (win : Bool) (d b c p : CStr)
    (hb : PATH_SEPARATOR win ∉ b) (hc : PATH_SEPARATOR win ∉ c) :
    peelPathItem win (peelPathItem win (d ++ PATH_SEPARATOR win :: b ++ PATH_SEPARATOR win :: c))
      = d ∧
    (PATH_SEPARATOR win ∉ p → peelPathItem win p = p) ∧
    peelPathItem win p <+: p := by
  refine ⟨?_, ?_, ?_⟩
  · have h1 : peelPathItem win (d ++ PATH_SEPARATOR win :: b ++ PATH_SEPARATOR win :: c)
        = d ++ PATH_SEPARATOR win :: b := by
      unfold peelPathItem
      rw [strrchr_append_cons hc]
      exact List.take_left' rfl
    rw [h1]
    unfold peelPathItem
    rw [strrchr_append_cons hb]
    exact List.take_left' rfl
  · intro hp
    unfold peelPathItem
    rw [strrchr_eq_none.mpr hp]
  · unfold peelPathItem
    split
    · exact List.take_prefix _ _
    · exact List.prefix_refl _

/-- C5 (witness): two `peelPathItem` steps take `/mame/roms/pacman.zip` to
`/mame`, and `pacman.zip` is returned unchanged. -/
theorem peelPathItem_twice_witness :
    peelPathItem false (peelPathItem false "/mame/roms/pacman.zip".toList) = "/mame".toList ∧
    peelPathItem false "pacman.zip".toList = "pacman.zip".toList :=
  have h := peelPathItem_twice false "/mame".toList "roms".toList "pacman.zip".toList
    "pacman.zip".toList (by decide) (by decide)
  ⟨h.1, h.2.1 (by decide)⟩

/-! ### The load operation -/

theorem uiModes_get?_rotateMode (K : OrientationFlags) (o : Nat) :
    ∃ ui, (uiModes K).get? (rotateMode K o) = some ui := by
  unfold rotateMode uiModes
  split_ifs <;> simp

/-- A load whose path resolves to no registry entry. -/
theorem retro_load_game_refused (K : OrientationFlags) (win : Bool)
    (drivers : List game_driver) (core : Core) (aPath : Option CStr) (s : RuntimeState)
    (h : getDriverIndex win drivers aPath = -1) :
    retro_load_game K win drivers core aPath s
      = some (false, { s with driverIndex := -1 }, []) := by
  unfold retro_load_game
  simp [h]

/-- A load whose path resolves to registry entry `i`. -/
theorem retro_load_game_resolved (K : OrientationFlags) (win : Bool)
    (drivers : List game_driver) (core : Core) (p : CStr) (s : RuntimeState)
    (i : Nat) (drv : game_driver)
    (h : getDriverIndex win drivers (some p) = (i : Int)) (hd : drivers.get? i = some drv) :
    ∃ ui, (uiModes K).get? (rotateMode K (drv.flags &&& K.ORIENTATION_MASK)) = some ui ∧
    retro_load_game K win drivers core (some p) s
      = some (decide ((0 : Int) = core.run_game i),
          { s with
            driverIndex := (i : Int)
            systemDir := some (peelPathItem win (peelPathItem win (normalizePath win p)))
            options := { s.options with
              samplerate := 48000
              ui_orientation := (ui : Int)
              skip_disclaimer := 1
              skip_gameinfo := 1 } },
          [Event.environ EnvironmentCommand.SET_ROTATION
              (rotateMode K (drv.flags &&& K.ORIENTATION_MASK)),
           Event.run_game (i : Int)]) := by
  obtain ⟨ui, hui⟩ := uiModes_get?_rotateMode K (drv.flags &&& K.ORIENTATION_MASK)
  refine ⟨ui, hui, ?_⟩
  rw [List.get?_eq_getElem?] at hd hui
  unfold retro_load_game
  simp [h, driverAt, hd, hui]

theorem driverAt_of_get? {drivers : List game_driver} {i : Nat} {name : CStr}
    (h : (drivers.get? i).map (·.name) = some name) :
    ∃ drv, drivers.get? i = some drv := by
  cases hd : drivers.get? i with
  | none => rw [hd] at h; exact absurd h (by simp)
  | some drv => exact ⟨drv, rfl⟩

/-- A load with a null `game->path`: refused when the null path resolves to no
entry, without defined behaviour (`strdup` of a null pointer) when it does. -/
theorem retro_load_game_null_path (K : OrientationFlags) (win : Bool)
    (drivers : List game_driver) (core : Core) (s : RuntimeState) :
    retro_load_game K win drivers core none s
      = if 0 ≤ getDriverIndex win drivers none then none
        else some (false, { s with driverIndex := getDriverIndex win drivers none }, []) := by
  unfold retro_load_game
  split_ifs <;> simp_all

/-- C6: for every game path, registry and core, `retro_load_game` returns true
exactly when `getDriverIndex(path)` is a valid registry index and
`run_game(index)` returns 0; `run_game` is called only when resolution
succeeded, once, with the resolved index. -/
theorem retro_load_game_true_iff (K : OrientationFlags) (win : Bool)
    (drivers : List game_driver) (core : Core) (p : CStr) (s : RuntimeState) :
    ∃ b s' calls, retro_load_game K win drivers core (some p) s = some (b, s', calls) ∧
      (b = true ↔
        (0 ≤ getDriverIndex win drivers (some p) ∧
         getDriverIndex win drivers (some p) < (drivers.length : Int) ∧
         core.run_game (getDriverIndex win drivers (some p)) = 0)) ∧
      runGameCalls calls
        = if 0 ≤ getDriverIndex win drivers (some p)
          then [getDriverIndex win drivers (some p)] else [] := by
  rcases getDriverIndex_cases win drivers (some p) with ⟨h, _⟩ | ⟨i, h1, h2, h3⟩
  · refine ⟨false, _, [], retro_load_game_refused K win drivers core (some p) s h, ?_, ?_⟩
    · simp [h]
    · simp [h, runGameCalls]
  · obtain ⟨drv, hd⟩ := driverAt_of_get? h3
    obtain ⟨ui, _, hload⟩ := retro_load_game_resolved K win drivers core p s i drv h1 hd
    refine ⟨_, _, _, hload, ?_, ?_⟩
    · simp [h1, h2, eq_comm]
    · simp [h1, runGameCalls]

/-- C8: for every path that resolves to index `i` and a core whose `run_game`
returns 0, `retro_load_game` returns true and leaves `driverIndex = i`,
`systemDir = peelPathItem(peelPathItem(normalizePath(path)))`,
`options.samplerate = 48000`, `options.skip_disclaimer = 1` and
`options.skip_gameinfo = 1`. -/
theorem retro_load_game_success_state (K : OrientationFlags) (win : Bool)
    (drivers : List game_driver) (core : Core) (p : CStr) (s : RuntimeState) (i : Nat)
    (hres : getDriverIndex win drivers (some p) = (i : Int))
    (hrun : core.run_game (i : Int) = 0) :
    ∃ s' calls, retro_load_game K win drivers core (some p) s = some (true, s', calls) ∧
      s'.driverIndex = (i : Int) ∧
      s'.systemDir = some (peelPathItem win (peelPathItem win (normalizePath win p))) ∧
      s'.options.samplerate = 48000 ∧
      s'.options.skip_disclaimer = 1 ∧
      s'.options.skip_gameinfo = 1 := by
  rcases getDriverIndex_cases win drivers (some p) with ⟨h, _⟩ | ⟨k, h1, _, h3⟩
  · rw [h] at hres
    omega
  · have hk : k = i := by rw [h1] at hres; exact_mod_cast hres
    subst hk
    obtain ⟨drv, hd⟩ := driverAt_of_get? h3
    obtain ⟨ui, _, hload⟩ := retro_load_game_resolved K win drivers core p s k drv h1 hd
    have hb : decide ((0 : Int) = core.run_game (k : Int)) = true := by simp [hrun]
    rw [hb] at hload
    exact ⟨_, _, hload, rfl, rfl, rfl, rfl, rfl⟩

/-- C8 (witness): the path `/mame/roms/pacman.zip`, with `pacman` at registry
index 5 and orientation flags 0, loads with result true, `driverIndex = 5` and
`systemDir = "/mame"`. -/
theorem retro_load_game_success_state_witness :
    (sampleDrivers.get? 5 = some ⟨"pacman".toList, 0⟩) ∧
    ∃ s' calls, retro_load_game sampleFlags false sampleDrivers sampleCore
        (some "/mame/roms/pacman.zip".toList) initialState = some (true, s', calls) ∧
      s'.driverIndex = 5 ∧ s'.systemDir = some "/mame".toList := by
  refine ⟨by decide, ?_⟩
  obtain ⟨s', calls, h, h1, h2, _⟩ := retro_load_game_success_state sampleFlags false
    sampleDrivers sampleCore "/mame/roms/pacman.zip".toList initialState 5
    (by rw [getDriverIndex_eq, driverName_some]; decide) rfl
  refine ⟨s', calls, h, h1, ?_⟩
  rw [h2, normalizePath_eq_map]
  decide

/-! ### Orientation -/

/-- C9: for each of the four rotation classes of the loaded machine,
`retro_get_system_av_info` reports `base_width = max_width` and
`base_height = max_height`, with (width, height) =
(`videoConfig.height`, `videoConfig.width`) for the classes 90 and 270 and
(`videoConfig.width`, `videoConfig.height`) for the classes none and 180; the
values are stored in the `unsigned` geometry fields. -/
theorem retro_get_system_av_info_geometry (K : OrientationFlags)
    (drivers : List game_driver) (videoConfig : osd_create_params) (s : RuntimeState)
    (drv : game_driver) (hK : K.Distinct) (hd : driverAt drivers s.driverIndex = some drv) :
    ((drv.flags &&& K.ORIENTATION_MASK = K.ROT90 ∨ drv.flags &&& K.ORIENTATION_MASK = K.ROT270) →
      retro_get_system_av_info K drivers videoConfig s
        = some { base_width := toUnsigned videoConfig.height
                 base_height := toUnsigned videoConfig.width
                 max_width := toUnsigned videoConfig.height
                 max_height := toUnsigned videoConfig.width }) ∧
    ((drv.flags &&& K.ORIENTATION_MASK = K.ROT0 ∨ drv.flags &&& K.ORIENTATION_MASK = K.ROT180) →
      retro_get_system_av_info K drivers videoConfig s
        = some { base_width := toUnsigned videoConfig.width
                 base_height := toUnsigned videoConfig.height
                 max_width := toUnsigned videoConfig.width
                 max_height := toUnsigned videoConfig.height }) ∧
    (∃ g, retro_get_system_av_info K drivers videoConfig s = some g ∧
      g.base_width = g.max_width ∧ g.base_height = g.max_height) := by
  obtain ⟨h1, h2, h3, h4, h5, h6⟩ := hK
  unfold retro_get_system_av_info
  rw [hd]
  refine ⟨?_, ?_, ⟨_, rfl, rfl, rfl⟩⟩
  · rintro (h | h)
    · simp [h]
    · simp [h]
  · rintro (h | h)
    · simp [h, Ne.symm h1, Ne.symm h3]
    · simp [h, h4, Ne.symm h6]

/-- C9 (witness): a 224 by 288 screen is reported as 288 by 224 for a machine
of class 90 and as 224 by 288 for a machine of class 180. -/
theorem retro_get_system_av_info_geometry_witness :
    retro_get_system_av_info sampleFlags [⟨"pacman".toList, 5⟩] ⟨224, 288⟩ initialState
      = some { base_width := 288, base_height := 224, max_width := 288, max_height := 224 } ∧
    retro_get_system_av_info sampleFlags [⟨"pacman".toList, 3⟩] ⟨224, 288⟩ initialState
      = some { base_width := 224, base_height := 288, max_width := 224, max_height := 288 } :=
  ⟨(retro_get_system_av_info_geometry sampleFlags [⟨"pacman".toList, 5⟩] ⟨224, 288⟩
      initialState ⟨"pacman".toList, 5⟩ (by decide) (by decide)).1 (by decide),
   (retro_get_system_av_info_geometry sampleFlags [⟨"pacman".toList, 3⟩] ⟨224, 288⟩
      initialState ⟨"pacman".toList, 3⟩ (by decide) (by decide)).2.1 (by decide)⟩

/-- C10 (counterexample): for a machine whose orientation flags are `ROT90`,
`retro_load_game` passes index 3 to the host and stores `uiModes[3] = ROT270`
as the UI orientation, which is not the machine's class. -/
theorem retro_load_game_rot90_ui_orientation :
    (∃ s' calls, retro_load_game sampleFlags false [⟨"pacman".toList, sampleFlags.ROT90⟩]
        sampleCore (some "/mame/roms/pacman.zip".toList) initialState = some (true, s', calls) ∧
      calls = [Event.environ EnvironmentCommand.SET_ROTATION 3, Event.run_game 0] ∧
      s'.options.ui_orientation = (sampleFlags.ROT270 : Int)) ∧
    (uiModes sampleFlags).get? (rotateMode sampleFlags
        (sampleFlags.ROT90 &&& sampleFlags.ORIENTATION_MASK)) = some sampleFlags.ROT270 ∧
    sampleFlags.ROT270 ≠ sampleFlags.ROT90 := by
  refine ⟨?_, by decide, by decide⟩
  obtain ⟨ui, hui, hload⟩ := retro_load_game_resolved sampleFlags false
    [⟨"pacman".toList, sampleFlags.ROT90⟩] sampleCore "/mame/roms/pacman.zip".toList
    initialState 0 ⟨"pacman".toList, sampleFlags.ROT90⟩
    (by rw [getDriverIndex_eq, driverName_some]; decide) (by decide)
  have h6 : ui = 6 := by
    have : (uiModes sampleFlags).get? (rotateMode sampleFlags
        (sampleFlags.ROT90 &&& sampleFlags.ORIENTATION_MASK)) = some 6 := by decide
    rw [this] at hui
    exact (Option.some.inj hui).symm
  subst h6
  exact ⟨_, _, hload, rfl, rfl⟩

/-- C10 (amended): with `rotateMode` as `retro_load_game` computes it from the
machine's masked orientation flags, `uiModes[rotateMode]` is the machine's own
class for the classes none and 180, it is `ROT270` for a machine of class 90
and `ROT90` for a machine of class 270. -/
theorem uiModes_rotateMode (K : OrientationFlags) (flags : Nat) (hK : K.Distinct) :
    (flags &&& K.ORIENTATION_MASK = K.ROT0 →
      (uiModes K).get? (rotateMode K (flags &&& K.ORIENTATION_MASK)) = some K.ROT0) ∧
    (flags &&& K.ORIENTATION_MASK = K.ROT180 →
      (uiModes K).get? (rotateMode K (flags &&& K.ORIENTATION_MASK)) = some K.ROT180) ∧
    (flags &&& K.ORIENTATION_MASK = K.ROT90 →
      (uiModes K).get? (rotateMode K (flags &&& K.ORIENTATION_MASK)) = some K.ROT270) ∧
    (flags &&& K.ORIENTATION_MASK = K.ROT270 →
      (uiModes K).get? (rotateMode K (flags &&& K.ORIENTATION_MASK)) = some K.ROT90) := by
  obtain ⟨h1, h2, h3, h4, h5, h6⟩ := hK
  unfold rotateMode uiModes
  refine ⟨?_, ?_, ?_, ?_⟩ <;> intro h <;> rw [h]
  · simp [Ne.symm h1, Ne.symm h2, Ne.symm h3]
  · simp [h4, Ne.symm h6]
  · simp
  · simp [h5, h6]

/-- C10 (witness): with the sample constants, a machine with flags `ROT180`
gets `uiModes[rotateMode] = ROT180` and one with flags `ROT270` gets `ROT90`. -/
theorem uiModes_rotateMode_witness :
    (uiModes sampleFlags).get? (rotateMode sampleFlags (3 &&& sampleFlags.ORIENTATION_MASK))
      = some sampleFlags.ROT180 ∧
    (uiModes sampleFlags).get? (rotateMode sampleFlags (6 &&& sampleFlags.ORIENTATION_MASK))
      = some sampleFlags.ROT90 :=
  ⟨(uiModes_rotateMode sampleFlags 3 (by decide)).2.1 (by decide),
   (uiModes_rotateMode sampleFlags 6 (by decide)).2.2.2 (by decide)⟩

/-! ### Pixel format negotiation -/

/-- C11: for every host, after `retro_init` the pixel format `retroColorMode`
is the first of 32-bit XRGB8888, 16-bit RGB565, 15-bit 0RGB1555 that the host
accepts, and the 15-bit format when it accepts none; the 32-bit format is the
first offer, and no offer follows an accepted one. -/
theorem retro_init_pixel_format (F : PixelFormats) (host : Host) (s : RuntimeState) :
    (retro_init F host s).1.retroColorMode = specPixelFormat F host ∧
    (pixelFormatOffers (retro_init F host s).2).head? = some F.RETRO_PIXEL_FORMAT_XRGB8888 ∧
    (∀ (pre post : List Nat) (f : Nat),
      pixelFormatOffers (retro_init F host s).2 = pre ++ f :: post →
      host.environ_cb EnvironmentCommand.SET_PIXEL_FORMAT f = true → post = []) ∧
    (retro_init F host s).2
      = if host.environ_cb EnvironmentCommand.SET_PIXEL_FORMAT F.RETRO_PIXEL_FORMAT_XRGB8888
        then [Event.environ EnvironmentCommand.SET_PIXEL_FORMAT F.RETRO_PIXEL_FORMAT_XRGB8888]
        else [Event.environ EnvironmentCommand.SET_PIXEL_FORMAT F.RETRO_PIXEL_FORMAT_XRGB8888,
              Event.environ EnvironmentCommand.SET_PIXEL_FORMAT F.RETRO_PIXEL_FORMAT_RGB565] := by
  unfold retro_init specPixelFormat pixelFormatOffers
  cases hX : host.environ_cb EnvironmentCommand.SET_PIXEL_FORMAT F.RETRO_PIXEL_FORMAT_XRGB8888
  · cases hR : host.environ_cb EnvironmentCommand.SET_PIXEL_FORMAT F.RETRO_PIXEL_FORMAT_RGB565
    · refine ⟨?_, by simp [hX, hR], ?_, by simp [hX, hR]⟩
      · cases hO : host.environ_cb EnvironmentCommand.SET_PIXEL_FORMAT
            F.RETRO_PIXEL_FORMAT_0RGB1555 <;> simp [hX, hR, hO, List.find?_cons]
      · intro pre post f h hacc
        simp only [hX, hR, Bool.not_false, if_true, List.filterMap_cons, List.filterMap_nil] at h
        rcases pre with _ | ⟨a, _ | ⟨b, pre⟩⟩
        · simp at h; rw [← h.1, hX] at hacc; cases hacc
        · simp at h; rw [← h.2.1, hR] at hacc; cases hacc
        · simp at h
    · refine ⟨by simp [hX, hR, List.find?_cons], by simp [hX, hR], ?_, by simp [hX, hR]⟩
      intro pre post f h hacc
      simp only [hX, hR, Bool.not_false, Bool.not_true, if_true, List.filterMap_cons,
        List.filterMap_nil] at h
      rcases pre with _ | ⟨a, _ | ⟨b, pre⟩⟩
      · simp at h; rw [← h.1, hX] at hacc; cases hacc
      · simp at h; exact h.2.2
      · simp at h
  · refine ⟨by simp [hX, List.find?_cons], by simp [hX], ?_, by simp [hX]⟩
    intro pre post f h hacc
    simp only [hX, Bool.not_true, List.filterMap_cons, List.filterMap_nil] at h
    rcases pre with _ | ⟨a, pre⟩
    · simp at h; exact h.2
    · simp at h

/-- C11 (witness): a host that accepts only RGB565 is offered XRGB8888, then
RGB565, and the session format is RGB565. -/
theorem retro_init_pixel_format_witness :
    (retro_init sampleFormats sampleHost initialState).1.retroColorMode
      = sampleFormats.RETRO_PIXEL_FORMAT_RGB565 ∧
    pixelFormatOffers (retro_init sampleFormats sampleHost initialState).2
      = [sampleFormats.RETRO_PIXEL_FORMAT_XRGB8888, sampleFormats.RETRO_PIXEL_FORMAT_RGB565] := by
  have h := retro_init_pixel_format sampleFormats sampleHost initialState
  refine ⟨h.1.trans (by decide), ?_⟩
  rw [h.2.2.2]
  decide

/-! ### Unload and reset -/

/-- C12 (counterexample): after `/mame/roms/pacman.zip` has been loaded with
`pacman` at index 5, `retro_unload_game` leaves `systemDir` null and
`driverIndex = 5`, a valid registry index and not the not-found value. -/
theorem retro_unload_game_keeps_driverIndex :
    ∃ s' calls, retro_load_game sampleFlags false sampleDrivers sampleCore
        (some "/mame/roms/pacman.zip".toList) initialState = some (true, s', calls) ∧
      (retro_unload_game s').1.systemDir = none ∧
      (retro_unload_game s').1.driverIndex = 5 ∧
      validIndex sampleDrivers (retro_unload_game s').1.driverIndex := by
  obtain ⟨ui, _, hload⟩ := retro_load_game_resolved sampleFlags false sampleDrivers sampleCore
    "/mame/roms/pacman.zip".toList initialState 5 ⟨"pacman".toList, 0⟩
    (by rw [getDriverIndex_eq, driverName_some]; decide) (by decide)
  refine ⟨_, _, hload, rfl, rfl, ?_⟩
  show validIndex sampleDrivers 5
  decide

/-- C12 (amended): for every runtime state, `retro_unload_game` leaves
`systemDir` null and every other variable, `driverIndex` included, as it was;
it calls the core's `mame_done` first and `free(systemDir)` after it. -/
theorem retro_unload_game_post (s : RuntimeState) :
    (retro_unload_game s).1 = { s with systemDir := none } ∧
    (retro_unload_game s).1.systemDir = none ∧
    (retro_unload_game s).1.driverIndex = s.driverIndex ∧
    (retro_unload_game s).2 = [Event.mame_done, Event.free s.systemDir] :=
  ⟨rfl, rfl, rfl, rfl⟩

/-- C13 (counterexample): after `/mame/roms/pacman.zip` has been loaded, the
second of two `retro_unload_game` calls in a row is not a no-op: it calls the
core's `mame_done` again, before a `free` of the null pointer. -/
theorem retro_unload_game_second_call_mame_done :
    ∃ s' calls, retro_load_game sampleFlags false sampleDrivers sampleCore
        (some "/mame/roms/pacman.zip".toList) initialState = some (true, s', calls) ∧
      (retro_unload_game (retro_unload_game s').1).2 = [Event.mame_done, Event.free none] ∧
      Event.mame_done ∈ (retro_unload_game (retro_unload_game s').1).2 ∧
      (retro_unload_game (retro_unload_game s').1).2 ≠ [] := by
  obtain ⟨ui, _, hload⟩ := retro_load_game_resolved sampleFlags false sampleDrivers sampleCore
    "/mame/roms/pacman.zip".toList initialState 5 ⟨"pacman".toList, 0⟩
    (by rw [getDriverIndex_eq, driverName_some]; decide) (by decide)
  exact ⟨_, _, hload, rfl, List.mem_cons_self _ _, List.cons_ne_nil _ _⟩

/-- C13 (amended): for every runtime state, two calls of `retro_unload_game` in
a row leave the same runtime state as one call; the second call finds
`systemDir` null, leaves the runtime state as it is and releases nothing, so
that the two calls together release at most the one string the first call
found; the second call does call the core's `mame_done` again, followed by a
`free` of the null pointer. -/
theorem retro_unload_game_idempotent (s : RuntimeState) :
    (retro_unload_game (retro_unload_game s).1).1 = (retro_unload_game s).1 ∧
    (retro_unload_game s).1.systemDir = none ∧
    (retro_unload_game (retro_unload_game s).1).2 = [Event.mame_done, Event.free none] ∧
    released (retro_unload_game (retro_unload_game s).1).2 = [] ∧
    released ((retro_unload_game s).2 ++ (retro_unload_game (retro_unload_game s).1).2)
      = s.systemDir.toList :=
  ⟨rfl, rfl, rfl, rfl, by cases h : s.systemDir <;> simp [retro_unload_game, released, h]⟩

/-- C18: for every runtime state, `retro_reset` calls the core's
`machine_reset` and nothing else: the runtime state, with `driverIndex`,
`systemDir`, `retroColorMode` and the five callbacks, is left as it was, and no
host callback is called. -/
theorem retro_reset_frame (s : RuntimeState) :
    (retro_reset s).2 = [Event.machine_reset] ∧
    (retro_reset s).2.filter Event.isHostCall = [] ∧
    (retro_reset s).1 = s ∧
    (retro_reset s).1.driverIndex = s.driverIndex ∧
    (retro_reset s).1.systemDir = s.systemDir ∧
    (retro_reset s).1.retroColorMode = s.retroColorMode ∧
    (retro_reset s).1.video_cb = s.video_cb ∧
    (retro_reset s).1.poll_cb = s.poll_cb ∧
    (retro_reset s).1.input_cb = s.input_cb ∧
    (retro_reset s).1.audio_batch_cb = s.audio_batch_cb ∧
    (retro_reset s).1.environ_cb = s.environ_cb :=
  ⟨rfl, rfl, rfl, rfl, rfl, rfl, rfl, rfl, rfl, rfl, rfl⟩

/-- C17: the rotation index that `retro_load_game` passes to the host is a
function of the machine's masked orientation flags, 1 for `ROT270`, 2 for
`ROT180`, 3 for `ROT90` and 0 otherwise; it is below 4, inside the table
`uiModes`; and the UI orientation taken from the table is `ROT90` for a
`ROT270` machine, `ROT270` for a `ROT90` machine, `ROT180` for a `ROT180`
machine and `ROT0` otherwise. -/
theorem retro_load_game_rotation_index (K : OrientationFlags) (win : Bool)
    (drivers : List game_driver) (core : Core) (p : CStr) (s : RuntimeState)
    (i : Nat) (drv : game_driver) (hK : K.Distinct)
    (h : getDriverIndex win drivers (some p) = (i : Int)) (hd : drivers.get? i = some drv) :
    ∃ b s' r, retro_load_game K win drivers core (some p) s
        = some (b, s', [Event.environ EnvironmentCommand.SET_ROTATION r,
                        Event.run_game (i : Int)]) ∧
      r = rotateMode K (drv.flags &&& K.ORIENTATION_MASK) ∧ r < 4 ∧
      (drv.flags &&& K.ORIENTATION_MASK = K.ROT270 →
        r = 1 ∧ s'.options.ui_orientation = (K.ROT90 : Int)) ∧
      (drv.flags &&& K.ORIENTATION_MASK = K.ROT180 →
        r = 2 ∧ s'.options.ui_orientation = (K.ROT180 : Int)) ∧
      (drv.flags &&& K.ORIENTATION_MASK = K.ROT90 →
        r = 3 ∧ s'.options.ui_orientation = (K.ROT270 : Int)) ∧
      (drv.flags &&& K.ORIENTATION_MASK ≠ K.ROT270 →
        drv.flags &&& K.ORIENTATION_MASK ≠ K.ROT180 →
        drv.flags &&& K.ORIENTATION_MASK ≠ K.ROT90 →
        r = 0 ∧ s'.options.ui_orientation = (K.ROT0 : Int)) := by
  obtain ⟨_, _, _, h4, h5, h6⟩ := hK
  obtain ⟨ui, hui, hload⟩ := retro_load_game_resolved K win drivers core p s i drv h hd
  refine ⟨_, _, _, hload, rfl, ?_, ?_, ?_, ?_, ?_⟩
  · unfold rotateMode
    split_ifs <;> simp
  · intro ho
    have hr : rotateMode K (drv.flags &&& K.ORIENTATION_MASK) = 1 := by
      unfold rotateMode
      simp [ho, h5, h6]
    rw [hr] at hui
    have : K.ROT90 = ui := by simpa [uiModes] using hui
    exact ⟨hr, by rw [this]⟩
  · intro ho
    have hr : rotateMode K (drv.flags &&& K.ORIENTATION_MASK) = 2 := by
      unfold rotateMode
      simp [ho, h4]
    rw [hr] at hui
    have : K.ROT180 = ui := by simpa [uiModes] using hui
    exact ⟨hr, by rw [this]⟩
  · intro ho
    have hr : rotateMode K (drv.flags &&& K.ORIENTATION_MASK) = 3 := by
      unfold rotateMode
      simp [ho]
    rw [hr] at hui
    have : K.ROT270 = ui := by simpa [uiModes] using hui
    exact ⟨hr, by rw [this]⟩
  · intro h270 h180 h90
    have hr : rotateMode K (drv.flags &&& K.ORIENTATION_MASK) = 0 := by
      unfold rotateMode
      simp [Ne.symm h270, Ne.symm h180, Ne.symm h90]
    rw [hr] at hui
    have : K.ROT0 = ui := by simpa [uiModes] using hui
    exact ⟨hr, by rw [this]⟩

/-- C17 (witness): a machine with flags `ROT270` is loaded with rotation index
1 passed to the host and UI orientation `ROT90`. -/
theorem retro_load_game_rotation_index_witness :
    ∃ b s', retro_load_game sampleFlags false [⟨"pacman".toList, sampleFlags.ROT270⟩]
        sampleCore (some "/mame/roms/pacman.zip".toList) initialState
        = some (b, s', [Event.environ EnvironmentCommand.SET_ROTATION 1, Event.run_game 0]) ∧
      s'.options.ui_orientation = (sampleFlags.ROT90 : Int) := by
  obtain ⟨b, s', r, hload, _, _, h270, _⟩ := retro_load_game_rotation_index sampleFlags false
    [⟨"pacman".toList, sampleFlags.ROT270⟩] sampleCore "/mame/roms/pacman.zip".toList
    initialState 0 ⟨"pacman".toList, sampleFlags.ROT270⟩ (by decide)
    (by rw [getDriverIndex_eq, driverName_some]; decide) (by decide)
  obtain ⟨hr, hui⟩ := h270 (by decide)
  subst hr
  exact ⟨b, s', hload, hui⟩

/-! ### normalizePath -/

/-- One store `*tok = b` at the first `a` removes one `a` from the string. -/
theorem count_set_strchr {s : CStr} {a b : Char} {i : Nat} (hab : a ≠ b)
    (h : strchr s a = some i) : (s.set i b).count a + 1 = s.count a := by
  induction s generalizing i with
  | nil => simp [strchr] at h
  | cons x xs ih =>
    simp only [strchr] at h
    split at h
    · rename_i hx
      cases h
      subst hx
      simp [List.count_cons, Ne.symm hab]
    · rename_i hx
      cases hs : strchr xs a with
      | none => simp [hs] at h
      | some j =>
        simp [hs] at h
        subst h
        have := ih hs
        simp only [List.set_cons_succ, List.count_cons]
        omega

theorem normalizePath_unfold (win : Bool) (p : CStr) :
    normalizePath win p
      = match strchr p (replaced win) with
        | some tok => normalizePath win (p.set tok (PATH_SEPARATOR win))
        | none => p := by
  rw [normalizePath]
  split <;> rename_i h <;> simp [h]

/-- C20: `normalizePath` terminates on every string: it is the loop that
stores the host separator at the first foreign separator and starts again,
and each such store lowers the number of foreign separators by one.  Its
result has the length of the input, contains no foreign separator, has the
host separator exactly where the input had either separator and the input's
character everywhere else; hence `normalizePath` is idempotent. -/
theorem normalizePath_spec (win : Bool) (p : CStr) :
    (normalizePath win p
      = match strchr p (replaced win) with
        | some tok => normalizePath win (p.set tok (PATH_SEPARATOR win))
        | none => p) ∧
    (∀ tok, strchr p (replaced win) = some tok →
      (p.set tok (PATH_SEPARATOR win)).count (replaced win) < p.count (replaced win)) ∧
    (normalizePath win p).length = p.length ∧
    replaced win ∉ normalizePath win p ∧
    (∀ i : Nat, (normalizePath win p)[i]? = some (PATH_SEPARATOR win) ↔
      (p[i]? = some (PATH_SEPARATOR win) ∨ p[i]? = some (replaced win))) ∧
    (∀ (i : Nat) (c : Char), p[i]? = some c → c ≠ PATH_SEPARATOR win → c ≠ replaced win →
      (normalizePath win p)[i]? = some c) ∧
    normalizePath win (normalizePath win p) = normalizePath win p := by
  refine ⟨normalizePath_unfold win p, ?_, ?_, ?_, ?_, ?_, ?_⟩
  · intro tok h
    have := count_set_strchr (replaced_ne_sep win) h
    omega
  · simp [normalizePath_eq_map, specNormalize]
  · rw [normalizePath_eq_map]
    unfold specNormalize
    intro hm
    obtain ⟨c, _, hc⟩ := List.mem_map.mp hm
    by_cases hr : c = replaced win
    · simp [hr] at hc
      exact replaced_ne_sep win hc.symm
    · simp [hr] at hc
  · intro i
    rw [normalizePath_eq_map]
    unfold specNormalize
    rw [List.getElem?_map]
    cases p[i]? with
    | none => simp
    | some c =>
      by_cases hr : c = replaced win
      · simp [hr]
      · simp [hr]
  · intro i c hc hs hr
    rw [normalizePath_eq_map]
    unfold specNormalize
    rw [List.getElem?_map, hc]
    simp [hr]
  · rw [normalizePath_eq_map, normalizePath_eq_map, specNormalize_idem]

/-- C20 (witness): `a\b/c\d` is normalised in two stores to `a/b/c/d`, after
which no store is left to do. -/
theorem normalizePath_spec_witness :
    normalizePath false "a\\b/c\\d".toList = "a/b/c/d".toList ∧
    ("a\\b/c\\d".toList.set 1 '/').count '\\' < "a\\b/c\\d".toList.count '\\' := by
  refine ⟨?_, (normalizePath_spec false "a\\b/c\\d".toList).2.1 1 (by decide)⟩
  rw [normalizePath_eq_map]
  decide

/-! ### The frame pump -/

/-- The events of one pass of the keyboard loop. -/
theorem keyboard_foldlM (host : Host) (keys : List KeyboardInfo) (a : List Int)
    (ev : List Event) (h : ∀ k ∈ keys, k.code < a.length) :
    ∃ a', keys.foldlM (keyboardStep host) (a, ev)
        = some (a', ev ++ keys.flatMap fun k =>
            [Event.input_state 0 Device.KEYBOARD 0 k.code,
             Event.store InputArray.retroKeyState k.code
               (host.input_cb 0 Device.KEYBOARD 0 k.code)]) ∧
      a'.length = a.length := by
  induction keys generalizing a ev with
  | nil => exact ⟨a, by simp, rfl⟩
  | cons k ks ih =>
    have hk : k.code < a.length := h k (List.mem_cons_self _ _)
    have hks : ∀ k' ∈ ks, k'.code < (a.set k.code
        (host.input_cb 0 Device.KEYBOARD 0 k.code)).length := by
      intro k' hk'
      rw [List.length_set]
      exact h k' (List.mem_cons_of_mem _ hk')
    obtain ⟨a', ha', hlen⟩ := ih (a.set k.code (host.input_cb 0 Device.KEYBOARD 0 k.code))
      (ev ++ [Event.input_state 0 Device.KEYBOARD 0 k.code,
              Event.store InputArray.retroKeyState k.code
                (host.input_cb 0 Device.KEYBOARD 0 k.code)]) hks
    refine ⟨a', ?_, by rw [hlen, List.length_set]⟩
    rw [List.foldlM_cons]
    simp only [keyboardStep, storeInt, hk, if_true, Option.bind_eq_bind, Option.some_bind]
    rw [ha']
    simp

/-- The inner joystick loop after `n` passes. -/
theorem joystickStep_foldlM (host : Host) (i n : Nat) (st : JoystickCursor)
    (h : st.jsState + n ≤ st.retroJsState.length) :
    ∃ a', (List.range n).foldlM (joystickStep host i) st
        = some { jsState := st.jsState + n
                 retroJsState := a'
                 calls := st.calls ++ (List.range n).flatMap fun j =>
                   [Event.input_state i Device.JOYPAD 0 j,
                    Event.store InputArray.retroJsState (st.jsState + j)
                      (host.input_cb i Device.JOYPAD 0 j)] } ∧
      a'.length = st.retroJsState.length ∧
      ∀ m : Nat, a'[m]? =
        if st.jsState ≤ m ∧ m < st.jsState + n
        then some (host.input_cb i Device.JOYPAD 0 (m - st.jsState))
        else st.retroJsState[m]? := by
  induction n with
  | zero =>
    refine ⟨st.retroJsState, by simp, rfl, ?_⟩
    intro m
    have : ¬ (st.jsState ≤ m ∧ m < st.jsState + 0) := by omega
    rw [if_neg this]
  | succ n ih =>
    obtain ⟨a, ha, hlen, hget⟩ := ih (by omega)
    have hlt : st.jsState + n < a.length := by omega
    refine ⟨a.set (st.jsState + n) (host.input_cb i Device.JOYPAD 0 n), ?_, ?_, ?_⟩
    · rw [List.range_succ, List.foldlM_append, ha]
      simp [joystickStep, storeInt, hlt, List.flatMap_append, Nat.add_assoc]
    · rw [List.length_set, hlen]
    · intro m
      rw [List.getElem?_set, hget m]
      by_cases hm : st.jsState + n = m
      · subst hm
        simp [hlt]
      · rw [if_neg hm]
        by_cases hin : st.jsState ≤ m ∧ m < st.jsState + n
        · rw [if_pos hin, if_pos (by omega)]
        · rw [if_neg hin, if_neg (by omega)]

/-- The outer joystick loop after `n` ports. -/
theorem joystickPort_foldlM (host : Host) (n : Nat) (st : JoystickCursor)
    (h : st.jsState + 16 * n ≤ st.retroJsState.length) :
    ∃ a', (List.range n).foldlM (joystickPort host) st
        = some { jsState := st.jsState + 16 * n
                 retroJsState := a'
                 calls := st.calls ++ (List.range n).flatMap fun i =>
                   (List.range 16).flatMap fun j =>
                     [Event.input_state i Device.JOYPAD 0 j,
                      Event.store InputArray.retroJsState (st.jsState + 16 * i + j)
                        (host.input_cb i Device.JOYPAD 0 j)] } ∧
      a'.length = st.retroJsState.length ∧
      ∀ m : Nat, a'[m]? =
        if st.jsState ≤ m ∧ m < st.jsState + 16 * n
        then some (host.input_cb ((m - st.jsState) / 16) Device.JOYPAD 0 ((m - st.jsState) % 16))
        else st.retroJsState[m]? := by
  induction n with
  | zero =>
    refine ⟨st.retroJsState, by simp, rfl, ?_⟩
    intro m
    have : ¬ (st.jsState ≤ m ∧ m < st.jsState + 16 * 0) := by omega
    rw [if_neg this]
  | succ n ih =>
    obtain ⟨a, ha, hlen, hget⟩ := ih (by omega)
    obtain ⟨a', ha', hlen', hget'⟩ := joystickStep_foldlM host n 16
      { jsState := st.jsState + 16 * n
        retroJsState := a
        calls := st.calls ++ (List.range n).flatMap fun i =>
          (List.range 16).flatMap fun j =>
            [Event.input_state i Device.JOYPAD 0 j,
             Event.store InputArray.retroJsState (st.jsState + 16 * i + j)
               (host.input_cb i Device.JOYPAD 0 j)] }
      (by show st.jsState + 16 * n + 16 ≤ a.length; omega)
    refine ⟨a', ?_, by rw [hlen', hlen], ?_⟩
    · rw [List.range_succ, List.foldlM_append, ha]
      simp only [List.foldlM_cons, List.foldlM_nil, Option.bind_eq_bind, Option.some_bind,
        joystickPort, ha', bind_pure]
      simp [List.flatMap_append, Nat.add_assoc, Nat.mul_add]
    · intro m
      rw [hget' m]
      simp only []
      by_cases hin : st.jsState + 16 * n ≤ m ∧ m < st.jsState + 16 * n + 16
      · rw [if_pos hin, if_pos (by omega)]
        have h1 : (m - st.jsState) / 16 = n := by omega
        have h2 : (m - st.jsState) % 16 = m - (st.jsState + 16 * n) := by omega
        rw [h1, h2]
      · rw [if_neg hin, hget m]
        by_cases hin' : st.jsState ≤ m ∧ m < st.jsState + 16 * n
        · rw [if_pos hin', if_pos (by omega)]
        · rw [if_neg hin', if_neg (by omega)]

/-- One tick of `retro_run` on a state whose input arrays hold the stores:
the state left and the events, spelled out. -/
theorem retro_run_eq (F : PixelFormats) (retroKeys : List KeyboardInfo) (host : Host)
    (core : Core) (s : RuntimeState)
    (hkeys : ∀ k ∈ retroKeys, k.code < s.retroKeyState.length)
    (hjs : s.retroJsState.length = 64) :
    ∃ s' : RuntimeState,
      retro_run F retroKeys host core s
        = some (s', [Event.input_poll] ++ specKeyboardEvents host retroKeys
            ++ specJoystickEvents host ++ [Event.mame_frame]
            ++ if s'.hasExited = false ∧ s'.videoBufferWidth ≠ 0 ∧ s'.videoBufferHeight ≠ 0
               then [Event.video_refresh s'.videoBufferWidth s'.videoBufferHeight
                       (mulUnsigned s'.videoBufferWidth
                         (if F.RETRO_PIXEL_FORMAT_XRGB8888 = s'.retroColorMode then 4 else 2)),
                     Event.audio_sample_batch 800]
               else []) ∧
      s'.retroJsState.length = 64 ∧
      (∀ m : Nat, m < 64 →
        s'.retroJsState[m]? = some (host.input_cb (m / 16) Device.JOYPAD 0 (m % 16))) ∧
      s'.hasExited = s.hasExited ∧ s'.retroColorMode = s.retroColorMode ∧
      s'.driverIndex = s.driverIndex ∧ s'.systemDir = s.systemDir ∧
      ∃ s₁ : RuntimeState, s'.videoBufferWidth = (core.mame_frame s₁).1 ∧
        s'.videoBufferHeight = (core.mame_frame s₁).2 := by
  obtain ⟨ks, hks, _⟩ := keyboard_foldlM host retroKeys s.retroKeyState [Event.input_poll] hkeys
  obtain ⟨js, hjl, hlen, hget⟩ := joystickPort_foldlM host 4
    { jsState := 0
      retroJsState := s.retroJsState
      calls := [Event.input_poll] ++ specKeyboardEvents host retroKeys } (by simp [hjs])
  simp only [Nat.zero_add] at hjl hlen hget
  refine ⟨{ s with
      retroKeyState := ks
      retroJsState := js
      videoBufferWidth := (core.mame_frame { s with retroKeyState := ks, retroJsState := js }).1
      videoBufferHeight := (core.mame_frame { s with retroKeyState := ks, retroJsState := js }).2 },
    ?_, by simpa [hjs] using hlen, ?_, rfl, rfl, rfl, rfl,
    ⟨{ s with retroKeyState := ks, retroJsState := js }, rfl, rfl⟩⟩
  · unfold retro_run
    rw [hks]
    simp only [joystickLoop, specKeyboardEvents] at hjl ⊢
    rw [hjl]
    simp only []
    generalize core.mame_frame _ = d
    cases hE : s.hasExited <;> by_cases hw : d.1 = 0 <;> by_cases hh : d.2 = 0 <;>
      simp [hE, hw, hh, specJoystickEvents]
  · intro m hm
    have := hget m
    simpa [hm] using this

theorem joypadQueries_specKeyboardEvents (host : Host) (retroKeys : List KeyboardInfo) :
    joypadQueries (specKeyboardEvents host retroKeys) = [] := by
  unfold joypadQueries specKeyboardEvents
  rw [List.filterMap_flatMap]
  simp

theorem jsStores_specKeyboardEvents (host : Host) (retroKeys : List KeyboardInfo) :
    jsStores (specKeyboardEvents host retroKeys) = [] := by
  unfold jsStores specKeyboardEvents
  rw [List.filterMap_flatMap]
  simp

theorem sinkCalls_inputEvents (host : Host) (retroKeys : List KeyboardInfo) :
    sinkCalls ([Event.input_poll] ++ specKeyboardEvents host retroKeys
      ++ specJoystickEvents host) = [] := by
  unfold sinkCalls
  rw [List.filter_eq_nil_iff]
  intro e he
  simp only [List.mem_append, List.mem_singleton, specKeyboardEvents, specJoystickEvents,
    List.mem_flatMap, List.mem_cons, List.mem_nil_iff, or_false] at he
  rcases he with (rfl | ⟨_, _, rfl | rfl⟩) | ⟨_, _, _, _, rfl | rfl⟩ <;> simp

theorem mame_frame_not_mem_inputEvents (host : Host) (retroKeys : List KeyboardInfo) :
    Event.mame_frame ∉ [Event.input_poll] ++ specKeyboardEvents host retroKeys
      ++ specJoystickEvents host := by
  intro he
  simp only [List.mem_append, List.mem_singleton, specKeyboardEvents, specJoystickEvents,
    List.mem_flatMap, List.mem_cons, List.mem_nil_iff, or_false] at he
  rcases he with (h | ⟨_, _, h | h⟩) | ⟨_, _, _, _, h | h⟩ <;> cases h

theorem joypadQueries_specJoystickEvents (host : Host) :
    joypadQueries (specJoystickEvents host)
      = (List.range 4).flatMap fun i => (List.range 16).map fun j => (i, 0, j) := by
  rfl

theorem jsStores_specJoystickEvents (host : Host) :
    jsStores (specJoystickEvents host)
      = (List.range 64).map fun m => (m, host.input_cb (m / 16) Device.JOYPAD 0 (m % 16)) := by
  rfl

/-- C15: for every host input-state function, one `retro_run` tick queries
the joypad state for exactly the 64 pairs of port `i < 4` and button `j < 16`,
port-major and button-minor, and stores the answers one after the other, so
that `retroJsState[16 * i + j] = input_cb(i, RETRO_DEVICE_JOYPAD, 0, j)`; every
store index is below 64, inside the array, and the 16 buttons of port 0 are
stored before any button of port 1. -/
theorem retro_run_joystick (F : PixelFormats) (retroKeys : List KeyboardInfo) (host : Host)
    (core : Core) (s : RuntimeState)
    (hkeys : ∀ k ∈ retroKeys, k.code < s.retroKeyState.length)
    (hjs : s.retroJsState.length = 64) :
    ∃ s' calls, retro_run F retroKeys host core s = some (s', calls) ∧
      joypadQueries calls
        = ((List.range 4).flatMap fun i => (List.range 16).map fun j => (i, 0, j)) ∧
      jsStores calls
        = ((List.range 64).map fun m =>
            (m, host.input_cb (m / 16) Device.JOYPAD 0 (m % 16))) ∧
      (∀ w ∈ jsStores calls, w.1 < 64) ∧
      (jsStores calls).take 16
        = ((List.range 16).map fun j => (j, host.input_cb 0 Device.JOYPAD 0 j)) ∧
      s'.retroJsState.length = 64 ∧
      (∀ i j : Nat, i < 4 → j < 16 →
        s'.retroJsState[16 * i + j]? = some (host.input_cb i Device.JOYPAD 0 j)) := by
  obtain ⟨s', hrun, hlen, hget, _⟩ := retro_run_eq F retroKeys host core s hkeys hjs
  have hq : ∀ tail : List Event, joypadQueries tail = [] →
      joypadQueries ([Event.input_poll] ++ specKeyboardEvents host retroKeys
        ++ specJoystickEvents host ++ [Event.mame_frame] ++ tail)
      = ((List.range 4).flatMap fun i => (List.range 16).map fun j => (i, 0, j)) := by
    intro tail ht
    have h1 := joypadQueries_specKeyboardEvents host retroKeys
    have h2 := joypadQueries_specJoystickEvents host
    unfold joypadQueries at h1 h2 ht ⊢
    simp only [List.filterMap_append, h1, h2, ht]
    simp
  have hs : ∀ tail : List Event, jsStores tail = [] →
      jsStores ([Event.input_poll] ++ specKeyboardEvents host retroKeys
        ++ specJoystickEvents host ++ [Event.mame_frame] ++ tail)
      = ((List.range 64).map fun m =>
          (m, host.input_cb (m / 16) Device.JOYPAD 0 (m % 16))) := by
    intro tail ht
    have h1 := jsStores_specKeyboardEvents host retroKeys
    have h2 := jsStores_specJoystickEvents host
    unfold jsStores at h1 h2 ht ⊢
    simp only [List.filterMap_append, h1, h2, ht]
    simp
  have htq : joypadQueries
      (if s'.hasExited = false ∧ s'.videoBufferWidth ≠ 0 ∧ s'.videoBufferHeight ≠ 0
       then [Event.video_refresh s'.videoBufferWidth s'.videoBufferHeight
               (mulUnsigned s'.videoBufferWidth
                 (if F.RETRO_PIXEL_FORMAT_XRGB8888 = s'.retroColorMode then 4 else 2)),
             Event.audio_sample_batch 800]
       else []) = [] := by
    split <;> rfl
  have hts : jsStores
      (if s'.hasExited = false ∧ s'.videoBufferWidth ≠ 0 ∧ s'.videoBufferHeight ≠ 0
       then [Event.video_refresh s'.videoBufferWidth s'.videoBufferHeight
               (mulUnsigned s'.videoBufferWidth
                 (if F.RETRO_PIXEL_FORMAT_XRGB8888 = s'.retroColorMode then 4 else 2)),
             Event.audio_sample_batch 800]
       else []) = [] := by
    split <;> rfl
  refine ⟨s', _, hrun, hq _ htq, hs _ hts, ?_, ?_, hlen, ?_⟩
  · intro w hw
    rw [hs _ hts] at hw
    obtain ⟨m, hm, rfl⟩ := List.mem_map.mp hw
    exact List.mem_range.mp hm
  · rw [hs _ hts]
    rfl
  · intro i j hi hj
    have := hget (16 * i + j) (by omega)
    rw [this]
    have h1 : (16 * i + j) / 16 = i := by omega
    have h2 : (16 * i + j) % 16 = j := by omega
    rw [h1, h2]

theorem initialState_retroKeyState_length : initialState.retroKeyState.length = 512 :=
  List.length_replicate 512 (0 : Int)

theorem initialState_retroJsState_length : initialState.retroJsState.length = 64 :=
  List.length_replicate 64 (0 : Int)

theorem sampleKeys_lt : ∀ k ∈ sampleKeys, k.code < initialState.retroKeyState.length := by
  intro k hk
  rw [initialState_retroKeyState_length]
  simp only [sampleKeys, List.mem_cons, List.mem_nil_iff, or_false] at hk
  rcases hk with rfl | rfl <;> decide

/-- C15 (witness): with the sample host, which reports button `j` of port `i`
as `16 * i + j + 1`, a tick from the initial state stores 17 at index 16, the
first button of port 1. -/
theorem retro_run_joystick_witness :
    ∃ s' calls, retro_run sampleFormats sampleKeys sampleHost sampleCore initialState
        = some (s', calls) ∧
      s'.retroJsState[16]? = some 17 ∧ (jsStores calls).length = 64 := by
  obtain ⟨s', calls, h, _, hst, _, _, _, hget⟩ := retro_run_joystick sampleFormats sampleKeys
    sampleHost sampleCore initialState sampleKeys_lt initialState_retroJsState_length
  refine ⟨s', calls, h, ?_, ?_⟩
  · have := hget 1 0 (by decide) (by decide)
    simpa [sampleHost] using this
  · rw [hst]
    simp

theorem mulUnsigned_of_lt {a b : Nat} (h : a * b < 4294967296) : mulUnsigned a b = a * b :=
  Nat.mod_eq_of_lt h

/-- C16: in one `retro_run` tick everything up to the core's frame step calls
neither sink; after the frame step the video sink is called exactly when
`hasExited` is false and both `videoBufferWidth` and `videoBufferHeight` are
non-zero; it receives that width and height and, as row stride, the `unsigned`
product of the width with 4 for the 32-bit format and with 2 for either 16-bit
format, which is `width * 4` or `width * 2` whenever that is below `2^32`; the
audio sink is called exactly when the video sink is, right after it, with 800
frames. -/
theorem retro_run_sinks (F : PixelFormats) (retroKeys : List KeyboardInfo) (host : Host)
    (core : Core) (s : RuntimeState) (hF : F.Distinct)
    (hkeys : ∀ k ∈ retroKeys, k.code < s.retroKeyState.length)
    (hjs : s.retroJsState.length = 64) :
    ∃ (s' : RuntimeState) (pre : List Event) (pitch : Nat),
      retro_run F retroKeys host core s
        = some (s', pre ++ [Event.mame_frame]
            ++ if s'.hasExited = false ∧ s'.videoBufferWidth ≠ 0 ∧ s'.videoBufferHeight ≠ 0
               then [Event.video_refresh s'.videoBufferWidth s'.videoBufferHeight pitch,
                     Event.audio_sample_batch 800]
               else []) ∧
      sinkCalls pre = [] ∧ Event.mame_frame ∉ pre ∧
      s'.hasExited = s.hasExited ∧ s'.retroColorMode = s.retroColorMode ∧
      (∃ s₁ : RuntimeState, s'.videoBufferWidth = (core.mame_frame s₁).1 ∧
        s'.videoBufferHeight = (core.mame_frame s₁).2) ∧
      (s'.retroColorMode = F.RETRO_PIXEL_FORMAT_XRGB8888 →
        pitch = mulUnsigned s'.videoBufferWidth 4 ∧
        (s'.videoBufferWidth * 4 < 4294967296 → pitch = s'.videoBufferWidth * 4)) ∧
      (s'.retroColorMode = F.RETRO_PIXEL_FORMAT_RGB565 ∨
       s'.retroColorMode = F.RETRO_PIXEL_FORMAT_0RGB1555 →
        pitch = mulUnsigned s'.videoBufferWidth 2 ∧
        (s'.videoBufferWidth * 2 < 4294967296 → pitch = s'.videoBufferWidth * 2)) := by
  obtain ⟨hXR, hXO, _⟩ := hF
  obtain ⟨s', hrun, _, _, hE, hC, _, _, hdims⟩ :=
    retro_run_eq F retroKeys host core s hkeys hjs
  refine ⟨s', _, _, hrun, sinkCalls_inputEvents host retroKeys,
    mame_frame_not_mem_inputEvents host retroKeys, hE, hC, hdims, ?_, ?_⟩
  · intro h
    rw [if_pos h.symm]
    exact ⟨rfl, fun hlt => mulUnsigned_of_lt hlt⟩
  · intro h
    have hne : F.RETRO_PIXEL_FORMAT_XRGB8888 ≠ s'.retroColorMode := by
      rcases h with h | h <;> rw [h]
      · exact hXR
      · exact hXO
    rw [if_neg hne]
    exact ⟨rfl, fun hlt => mulUnsigned_of_lt hlt⟩

/-- C16 (witness): with the 32-bit format negotiated and a core whose frames
are 224 by 288, a tick ends with the video sink called with width 224, height
288 and stride 896, then the audio sink with 800 frames. -/
theorem retro_run_sinks_witness :
    ∃ s' pre, retro_run sampleFormats sampleKeys sampleHost sampleCore
        { initialState with retroColorMode := 1 }
        = some (s', pre ++ [Event.mame_frame, Event.video_refresh 224 288 896,
            Event.audio_sample_batch 800]) ∧
      sinkCalls pre = [] := by
  obtain ⟨s', pre, pitch, hrun, hpre, _, hE, hC, ⟨s₁, hw, hh⟩, hX, _⟩ :=
    retro_run_sinks sampleFormats sampleKeys sampleHost sampleCore
      { initialState with retroColorMode := 1 } (by decide)
      sampleKeys_lt initialState_retroJsState_length
  have hw' : s'.videoBufferWidth = 224 := hw
  have hh' : s'.videoBufferHeight = 288 := hh
  have hp : pitch = 896 := by
    have := (hX (by rw [hC]; rfl)).2 (by rw [hw']; decide)
    rw [this, hw']
  have hcond : s'.hasExited = false ∧ s'.videoBufferWidth ≠ 0 ∧ s'.videoBufferHeight ≠ 0 := by
    refine ⟨by rw [hE]; rfl, by rw [hw']; decide, by rw [hh']; decide⟩
  rw [if_pos hcond, hw', hh', hp] at hrun
  exact ⟨s', pre, by simpa using hrun, hpre⟩

/-! ### Reachable states -/

/-- A keyboard pass that is defined stores inside `retroKeyState` only. -/
theorem keyboard_foldlM_some (host : Host) (keys : List KeyboardInfo) (a : List Int)
    (ev : List Event) (r : List Int × List Event)
    (h : keys.foldlM (keyboardStep host) (a, ev) = some r) :
    ∀ k ∈ keys, k.code < a.length := by
  induction keys generalizing a ev with
  | nil => intro k hk; cases hk
  | cons k ks ih =>
    rw [List.foldlM_cons] at h
    by_cases hk : k.code < a.length
    · simp only [keyboardStep, storeInt, hk, if_true, Option.bind_eq_bind,
        Option.some_bind] at h
      intro k' hk'
      rcases List.mem_cons.mp hk' with rfl | hk'
      · exact hk
      · have := ih _ _ h k' hk'
        rwa [List.length_set] at this
    · simp [keyboardStep, storeInt, hk] at h

theorem retro_run_some_keys (F : PixelFormats) (retroKeys : List KeyboardInfo) (host : Host)
    (core : Core) (s : RuntimeState) (r : RuntimeState × List Event)
    (h : retro_run F retroKeys host core s = some r) :
    ∀ k ∈ retroKeys, k.code < s.retroKeyState.length := by
  unfold retro_run at h
  split at h
  · cases h
  · rename_i ks calls hk
    exact keyboard_foldlM_some host retroKeys _ _ _ hk

theorem retro_init_frame (F : PixelFormats) (host : Host) (s : RuntimeState) :
    (retro_init F host s).1.hasExited = s.hasExited ∧
    (retro_init F host s).1.retroJsState = s.retroJsState ∧
    (retro_init F host s).1.systemDir = s.systemDir ∧
    (retro_init F host s).1.driverIndex = s.driverIndex := by
  unfold retro_init
  simp only []
  split_ifs <;> exact ⟨rfl, rfl, rfl, rfl⟩

theorem driverAt_some_validIndex {drivers : List game_driver} {i : Int} {drv : game_driver}
    (h : driverAt drivers i = some drv) : validIndex drivers i := by
  unfold driverAt at h
  split_ifs at h with h0
  have hlt : i.toNat < drivers.length := by
    by_contra hge
    rw [List.get?_eq_getElem?, List.getElem?_eq_none (by omega)] at h
    cases h
  exact ⟨h0, by omega⟩

/-- What a defined `retro_load_game` leaves: either the path is refused, with
`driverIndex = -1` and `systemDir` untouched, or `systemDir` is a string and
`driverIndex` a valid index; `hasExited` and the joystick array are untouched. -/
theorem retro_load_game_frame (K : OrientationFlags) (win : Bool)
    (drivers : List game_driver) (core : Core) (game_path : Option CStr)
    (s s' : RuntimeState) (b : Bool) (calls : List Event)
    (h : retro_load_game K win drivers core game_path s = some (b, s', calls)) :
    s'.hasExited = s.hasExited ∧ s'.retroJsState = s.retroJsState ∧
    ((s'.driverIndex = -1 ∧ s'.systemDir = s.systemDir) ∨
     (s'.systemDir ≠ none ∧ validIndex drivers s'.driverIndex)) := by
  unfold retro_load_game at h
  simp only [] at h
  split_ifs at h with h0
  · split at h
    · rename_i path drv hp hd
      split at h
      · cases h
      · simp only [Option.some.injEq, Prod.mk.injEq] at h
        obtain ⟨_, rfl, _⟩ := h
        exact ⟨rfl, rfl, Or.inr ⟨by simp, driverAt_some_validIndex hd⟩⟩
    · cases h
  · simp only [Option.some.injEq, Prod.mk.injEq] at h
    obtain ⟨_, rfl, _⟩ := h
    refine ⟨rfl, rfl, Or.inl ⟨?_, rfl⟩⟩
    show getDriverIndex win drivers game_path = -1
    rcases getDriverIndex_cases win drivers game_path with ⟨h1, _⟩ | ⟨i, h1, _⟩
    · exact h1
    · rw [h1] at h0
      omega

/-- What a defined `retro_run` leaves untouched, on a joystick array of 64. -/
theorem retro_run_frame (F : PixelFormats) (retroKeys : List KeyboardInfo) (host : Host)
    (core : Core) (s s' : RuntimeState) (calls : List Event)
    (hjs : s.retroJsState.length = 64)
    (h : retro_run F retroKeys host core s = some (s', calls)) :
    s'.hasExited = s.hasExited ∧ s'.retroJsState.length = 64 ∧
    s'.systemDir = s.systemDir ∧ s'.driverIndex = s.driverIndex ∧
    (sinkCalls calls ≠ [] ↔
      (s'.hasExited = false ∧ s'.videoBufferWidth ≠ 0 ∧ s'.videoBufferHeight ≠ 0)) := by
  have hkeys := retro_run_some_keys F retroKeys host core s _ h
  obtain ⟨s₂, hrun, hlen, _, hE, _, hD, hS, _⟩ := retro_run_eq F retroKeys host core s hkeys hjs
  rw [hrun] at h
  simp only [Option.some.injEq, Prod.mk.injEq] at h
  obtain ⟨rfl, rfl⟩ := h
  refine ⟨hE, hlen, hS, hD, ?_⟩
  have hpre := sinkCalls_inputEvents host retroKeys
  unfold sinkCalls at hpre ⊢
  rw [List.filter_append, List.filter_append, hpre]
  by_cases hc : s₂.hasExited = false ∧ s₂.videoBufferWidth ≠ 0 ∧ s₂.videoBufferHeight ≠ 0
  · simp [hc]
  · simp [hc]

theorem reachable_invariant (K : OrientationFlags) (win : Bool) (drivers : List game_driver)
    (F : PixelFormats) (retroKeys : List KeyboardInfo) (canLoad : RuntimeState → Prop)
    (s : RuntimeState) (hs : Reachable K win drivers F retroKeys canLoad s) :
    s.hasExited = false ∧ s.retroJsState.length = 64 := by
  induction hs with
  | initial => exact ⟨rfl, initialState_retroJsState_length⟩
  | init host _ ih =>
    obtain ⟨h1, h2, _⟩ := retro_init_frame F host _
    rw [h1, h2]
    exact ih
  | load core game_path _ _ hload ih =>
    obtain ⟨h1, h2, _⟩ := retro_load_game_frame K win drivers core game_path _ _ _ _ hload
    rw [h1, h2]
    exact ih
  | run host core _ hrun ih =>
    obtain ⟨h1, h2, _⟩ := retro_run_frame F retroKeys host core _ _ _ ih.2 hrun
    rw [h1]
    exact ⟨ih.1, h2⟩
  | reset _ ih => exact ih
  | unload _ ih => exact ih

/-- C19: `hasExited` is false in the initial state and in every state
reachable through `retro_init`, `retro_load_game`, `retro_run`, `retro_reset`
and `retro_unload_game`; so a `retro_run` tick from such a state calls the
video and audio sinks exactly when `videoBufferWidth` and `videoBufferHeight`
are both non-zero after the frame step. -/
theorem hasExited_never_set (K : OrientationFlags) (win : Bool) (drivers : List game_driver)
    (F : PixelFormats) (retroKeys : List KeyboardInfo) (s : RuntimeState)
    (hs : Reachable K win drivers F retroKeys (fun _ => True) s) :
    initialState.hasExited = false ∧ s.hasExited = false ∧
    (∀ (host : Host) (core : Core) (s' : RuntimeState) (calls : List Event),
      retro_run F retroKeys host core s = some (s', calls) →
      (sinkCalls calls ≠ [] ↔ (s'.videoBufferWidth ≠ 0 ∧ s'.videoBufferHeight ≠ 0))) := by
  obtain ⟨hE, hlen⟩ := reachable_invariant K win drivers F retroKeys _ s hs
  refine ⟨rfl, hE, ?_⟩
  intro host core s' calls hrun
  obtain ⟨h1, _, _, _, hiff⟩ := retro_run_frame F retroKeys host core s s' calls hlen hrun
  rw [hiff, h1, hE]
  simp

/-- C19 (witness): after `retro_init` and a load of `/mame/roms/pacman.zip`
`hasExited` is still false. -/
theorem hasExited_never_set_witness :
    ∃ s₁ calls, retro_load_game sampleFlags false sampleDrivers sampleCore
        (some "/mame/roms/pacman.zip".toList) (retro_init sampleFormats sampleHost initialState).1
        = some (true, s₁, calls) ∧
      s₁.hasExited = false := by
  obtain ⟨ui, _, hload⟩ := retro_load_game_resolved sampleFlags false sampleDrivers sampleCore
    "/mame/roms/pacman.zip".toList (retro_init sampleFormats sampleHost initialState).1 5
    ⟨"pacman".toList, 0⟩ (by rw [getDriverIndex_eq, driverName_some]; decide) (by decide)
  exact ⟨_, _, hload,
    (hasExited_never_set sampleFlags false sampleDrivers sampleFormats sampleKeys _
      (Reachable.load sampleCore _ (Reachable.init sampleHost Reachable.initial) trivial
        hload)).2.1⟩

end Libretro
